import Mathlib

/-!
# Trinity: fd registry, random source, signal plane, start-up and log stripping

A shallow embedding of `fds.c`, `trinity.c` and `log.c` (function `strip_ansi`).

* The C library and the rest of the program are an explicit environment: the
  results of `rand()`, of the providers' draw routines and of `rand_range` are
  streams indexed by the number of calls made so far.
* Loops that need not terminate (`get_new_random_fd`, the `regen` loop) take
  fuel and return `none` when it runs out.
* Memory accesses outside a buffer make the model return `none`.
-/

namespace Trinity

/-! ## Shared control block -/

/-- Modelled from the spec: the `exit_reason` enumeration, whose declaration
(`shm.h`) is not among the sources. `STILL_RUNNING` and `EXIT_SIGINT` are the
names used by `trinity.c`; the other four are the remaining members the spec
lists (KERNEL_TAINTED, SHUTDOWN_REQUESTED, CHILD_REACHED_COUNT, FATAL). -/
inductive exit_reason_t
  | STILL_RUNNING
  | EXIT_SIGINT
  | EXIT_KERNEL_TAINTED
  | EXIT_SHUTDOWN_REQUESTED
  | EXIT_REACHED_COUNT
  | EXIT_FATAL
  deriving DecidableEq, Repr

/-- Modelled from the spec: the fields of `struct shm_s` that `fds.c` and
`trinity.c` read or write (the declaration, `shm.h`, is not among the sources).
`current_fd` is kept as a signed integer so that every value a provider can
return is representable. -/
structure shm_s where
  seed : Nat
  execcount : Nat
  successes : Nat
  failures : Nat
  regenerate : Nat
  max_children : Nat
  parentpid : Int
  pids : List Int
  current_fd : Int
  fd_lifetime : Nat
  exit_reason : exit_reason_t
  deriving DecidableEq, Repr

/-- The control block right after `memset(shm, 0, sizeof(struct shm_s))`. -/
def shm_zeroed : shm_s :=
  { seed := 0, execcount := 0, successes := 0, failures := 0, regenerate := 0,
    max_children := 0, parentpid := 0, pids := [], current_fd := 0,
    fd_lifetime := 0, exit_reason := exit_reason_t.STILL_RUNNING }

/-! ## Environment of the fd registry (`fds.c`) -/

/-- Everything `get_random_fd` obtains from outside `fds.c`.
`rand k` is the result of the `k`-th call of `rand()`, `get i k` the result of
provider `i`'s draw routine when it is the `k`-th provider call, and
`rand_range lo hi k` the result of the `k`-th call of `rand_range(lo, hi)`
(`rand_range` is not among the sources; whatever it draws from `rand()` is not
counted in the `rand` stream). `max_children` is the global of that name. -/
structure World where
  rand : Nat → Nat
  get : Nat → Nat → Int
  rand_range : Nat → Nat → Nat → Nat
  max_children : Nat

/-- How many calls of `rand()`, of a draw routine and of `rand_range` have
been made. -/
structure Cursor where
  nrand : Nat
  nget : Nat
  nrange : Nat
  deriving DecidableEq, Repr

/-- The value `ARRAY_SIZE(fd_providers)`: sockets, pipes, perf, epoll, eventfd, files. -/
def NR_FD_PROVIDERS : Nat := 6

/-- The `while (fd < 0)` loop of `get_new_random_fd`; `fd` is the current value
of the local variable. -/
def get_new_random_fd_loop (w : World) : Nat → Int → Cursor → Option (Int × Cursor)
  | 0, fd, c => if fd < 0 then none else some (fd, c)
  | fuel + 1, fd, c =>
    if fd < 0 then
      let i := w.rand c.nrand % NR_FD_PROVIDERS
      get_new_random_fd_loop w fuel (w.get i c.nget)
        { c with nrand := c.nrand + 1, nget := c.nget + 1 }
    else some (fd, c)

/-- The function `get_new_random_fd`: the loop entered with `fd = -1`. -/
def get_new_random_fd (w : World) (fuel : Nat) (c : Cursor) : Option (Int × Cursor) :=
  get_new_random_fd_loop w fuel (-1) c

/-- The code of `get_random_fd` from the label `regen` on. The outer fuel bounds
the number of passes through the label, `inner` is the fuel of each call of
`get_new_random_fd`. -/
def regen (w : World) (inner : Nat) : Nat → shm_s → Cursor → Option (Int × shm_s × Cursor)
  | 0, _, _ => none
  | fuel + 1, shm, c =>
    let step : Option (shm_s × Cursor) :=
      if shm.fd_lifetime = 0 then
        match get_new_random_fd w inner c with
        | none => none
        | some (fd, c1) =>
          some ({ shm with current_fd := fd,
                           fd_lifetime := w.rand_range 5 w.max_children c1.nrange },
                { c1 with nrange := c1.nrange + 1 })
      else some ({ shm with fd_lifetime := shm.fd_lifetime - 1 }, c)
    match step with
    | none => none
    | some (shm1, c1) =>
      if shm1.current_fd = 0 then regen w inner fuel { shm1 with fd_lifetime := 0 } c1
      else some (shm1.current_fd, shm1, c1)

/-- The function `get_random_fd`: returned descriptor, control block and cursor
afterwards. -/
def get_random_fd (w : World) (fuel : Nat) (shm : shm_s) (c : Cursor) :
    Option (Int × shm_s × Cursor) :=
  if w.rand c.nrand % 4 = 0 then
    match get_new_random_fd w fuel { c with nrand := c.nrand + 1 } with
    | none => none
    | some (fd, c1) => some (fd, shm, c1)
  else regen w fuel fuel shm { c with nrand := c.nrand + 1 }

/-- The `j`-th provider draw of a run of the fresh-draw loop started at cursor `c`: it
asks provider `rand() % 6` and is provider call number `c.nget + j`. -/
def draw (w : World) (c : Cursor) (j : Nat) : Int :=
  w.get (w.rand (c.nrand + j) % NR_FD_PROVIDERS) (c.nget + j)

/-- The cursor after `k` more iterations of the fresh-draw loop. -/
def advance (c : Cursor) (k : Nat) : Cursor :=
  { c with nrand := c.nrand + k, nget := c.nget + k }

/-- The cursor after the `rand() % 4` draw that selects the branch of `get_random_fd`. -/
def after_selector (c : Cursor) : Cursor :=
  { c with nrand := c.nrand + 1 }

/-- A client that calls `get_random_fd` `n` times in a row and collects the descriptors. -/
def get_random_fd_calls (w : World) (fuel : Nat) :
    Nat → shm_s → Cursor → Option (List Int × shm_s × Cursor)
  | 0, shm, c => some ([], shm, c)
  | n + 1, shm, c =>
    match get_random_fd w fuel shm c with
    | none => none
    | some (fd, shm1, c1) =>
      match get_random_fd_calls w fuel n shm1 c1 with
      | none => none
      | some (fds, shm2, c2) => some (fd :: fds, shm2, c2)

/-- The control block and cursor a regenerating run of `regen` ends with: `fd` was drawn
as draw `m`, after `z` earlier draws of descriptor 0. -/
def regenerated (w : World) (shm : shm_s) (c : Cursor) (m z : Nat) : shm_s × Cursor :=
  ({ shm with current_fd := draw w c m,
              fd_lifetime := w.rand_range 5 w.max_children (c.nrange + z) },
   { nrand := c.nrand + (m + 1), nget := c.nget + (m + 1), nrange := c.nrange + z + 1 })

/-- The invariant of the reused-fd state: `fd_lifetime > 0` implies `current_fd > 0`. -/
def fd_state_ok (shm : shm_s) : Prop :=
  0 < shm.fd_lifetime → 0 < shm.current_fd

instance (shm : shm_s) : Decidable (fd_state_ok shm) := by
  unfold fd_state_ok; infer_instance

/-! ## Random source (`trinity.c`) -/

/-- The largest value `rand()` returns with glibc. -/
def RAND_MAX : Nat := 2 ^ 31 - 1

/-- Width of `unsigned long` on a 64-bit build (`__WORDSIZE == 64`). -/
def ULONG_MOD : Nat := 2 ^ 64

/-- The function `rand64` on a 64-bit build. `rand` is the stream of `rand()` results and
`n` the number of calls made before; the result is the value returned and the
number of calls made afterwards. Every assignment to `r` is reduced modulo
`2 ^ 64`. -/
def rand64 (rand : Nat → Nat) (n : Nat) : Nat × Nat :=
  match rand n % 3 with
  | 0 =>
    let r := (rand (n + 1) % ULONG_MOD) &&& (rand (n + 2) % ULONG_MOD)
    let r := (r <<< 32) % ULONG_MOD
    let r := r ||| ((rand (n + 3) % ULONG_MOD) &&& (rand (n + 4) % ULONG_MOD))
    (r, n + 5)
  | 1 =>
    let r := (rand (n + 1) % ULONG_MOD) ||| (rand (n + 2) % ULONG_MOD)
    let r := (r <<< 32) % ULONG_MOD
    let r := r ||| ((rand (n + 3) % ULONG_MOD) ||| (rand (n + 4) % ULONG_MOD))
    (r, n + 5)
  | 2 =>
    let r := rand (n + 1) % ULONG_MOD
    let r := (r <<< 32) % ULONG_MOD
    let r := r ||| (rand (n + 2) % ULONG_MOD)
    (r, n + 3)
  | _ => (0, n + 1)

/-! ## Signal plane (`trinity.c`) -/

/-- Signal numbers of `<signal.h>` on Linux (x86, ARM and the generic ABI). -/
def SIGINT : Nat := 2
/-- Arithmetic exception. -/
def SIGFPE : Nat := 8
/-- Invalid memory reference. -/
def SIGSEGV : Nat := 11
/-- Timer signal of `alarm`. -/
def SIGALRM : Nat := 14
/-- Child stopped or terminated. -/
def SIGCHLD : Nat := 17
/-- Stop typed at the terminal. -/
def SIGTSTP : Nat := 20
/-- CPU time limit exceeded. -/
def SIGXCPU : Nat := 24
/-- Window resize. -/
def SIGWINCH : Nat := 28

/-- Exit statuses of `<stdlib.h>`. -/
def EXIT_SUCCESS : Int := 0
/-- Failure status of `<stdlib.h>`. -/
def EXIT_FAILURE : Int := 1

/-- What a signal is bound to: `SIG_DFL`, `SIG_IGN`, or the function `sighandler`. -/
inductive sighandler_t
  | SIG_DFL
  | SIG_IGN
  | handler
  deriving DecidableEq, Repr

/-- The part of a process the signal plane acts on: the mapped control block and
the table of signal dispositions. -/
structure Proc where
  shm : shm_s
  disp : Nat → sighandler_t

/-- How a function hands control back. -/
inductive Control
  | returned
  | longjmp (val : Int)
  | exited (status : Int)
  deriving DecidableEq, Repr

/-- The calls `signal(sig, h)` and `sigaction(sig, &sa, NULL)` with `sa_handler = h`:
the kernel changes the disposition of the signals it lets a process catch
(`catchable`) and fails, leaving the table alone, for the others. The return
value is discarded at every call site. -/
def set_disposition (catchable : Nat → Bool) (tbl : Nat → sighandler_t) (sig : Nat)
    (h : sighandler_t) : Nat → sighandler_t :=
  fun n => if n = sig ∧ catchable sig = true then h else tbl n

/-- The signals a process can rebind on Linux with glibc: 1..64 except SIGKILL (9) and
SIGSTOP (19), which the kernel refuses, and 32 and 33, which glibc keeps for its thread
library and refuses with EINVAL. -/
def linux_catchable (sig : Nat) : Bool :=
  decide (1 ≤ sig ∧ sig ≤ 64 ∧ sig ≠ 9 ∧ sig ≠ 19 ∧ sig ≠ 32 ∧ sig ≠ 33)

/-- The function `sighandler`. -/
def sighandler (catchable : Nat → Bool) (sig : Nat) (p : Proc) : Proc × Control :=
  if sig = SIGALRM then
    ({ shm := { p.shm with fd_lifetime := 0 },
       disp := set_disposition catchable p.disp sig sighandler_t.handler },
     Control.longjmp 1)
  else if sig = SIGINT then
    ({ p with shm := { p.shm with exit_reason := exit_reason_t.EXIT_SIGINT } }, Control.returned)
  else (p, Control.exited EXIT_SUCCESS)

/-- The function `mask_signals`; `rtmin` and `rtmax` are the values of `SIGRTMIN` and
`SIGRTMAX`, `debug` the command-line flag. -/
def mask_signals (catchable : Nat → Bool) (debug : Bool) (rtmin rtmax : Nat)
    (tbl : Nat → sighandler_t) : Nat → sighandler_t :=
  let t := (List.range' 1 511).foldl
    (fun t i => set_disposition catchable t i sighandler_t.handler) tbl
  let t := set_disposition catchable t SIGCHLD sighandler_t.SIG_DFL
  let t := set_disposition catchable t SIGFPE sighandler_t.SIG_IGN
  let t := set_disposition catchable t SIGXCPU sighandler_t.SIG_IGN
  let t := set_disposition catchable t SIGTSTP sighandler_t.SIG_IGN
  let t := set_disposition catchable t SIGWINCH sighandler_t.SIG_IGN
  let t := (List.range' rtmin (rtmax + 1 - rtmin)).foldl
    (fun t i => set_disposition catchable t i sighandler_t.SIG_IGN) t
  if debug = true then set_disposition catchable t SIGSEGV sighandler_t.SIG_DFL else t

/-- What the delivery of a signal does to a process. -/
inductive Delivery
  | default_action
  | ignored
  | ran (shm : shm_s) (c : Control)
  deriving DecidableEq, Repr

/-- Delivery of `sig` to a process whose dispositions are `p.disp`. -/
def deliver (catchable : Nat → Bool) (sig : Nat) (p : Proc) : Delivery :=
  match p.disp sig with
  | sighandler_t.SIG_DFL => Delivery.default_action
  | sighandler_t.SIG_IGN => Delivery.ignored
  | sighandler_t.handler =>
    Delivery.ran (sighandler catchable sig p).1.shm (sighandler catchable sig p).2

/-- The signal-plane table as the specification words it: SIGCHLD default; SIGFPE,
SIGXCPU, SIGTSTP, SIGWINCH and the realtime signals ignored; SIGSEGV ignored,
default only in debug mode; SIGALRM resets `fd_lifetime` and jumps; SIGINT
publishes `EXIT_SIGINT`; anything else exits with the success code. -/
def signal_plane_spec (debug : Bool) (rtmin rtmax : Nat) (sig : Nat) (shm : shm_s) : Delivery :=
  if sig = SIGCHLD then Delivery.default_action
  else if sig = SIGFPE ∨ sig = SIGXCPU ∨ sig = SIGTSTP ∨ sig = SIGWINCH then Delivery.ignored
  else if rtmin ≤ sig ∧ sig ≤ rtmax then Delivery.ignored
  else if sig = SIGSEGV then
    (if debug = true then Delivery.default_action else Delivery.ignored)
  else if sig = SIGALRM then Delivery.ran { shm with fd_lifetime := 0 } (Control.longjmp 1)
  else if sig = SIGINT then
    Delivery.ran { shm with exit_reason := exit_reason_t.EXIT_SIGINT } Control.returned
  else Delivery.ran shm (Control.exited EXIT_SUCCESS)

/-- The table `mask_signals` installs: as `signal_plane_spec`, except that SIGSEGV
outside debug mode is an ordinary handled signal. -/
def signal_plane_code (debug : Bool) (rtmin rtmax : Nat) (sig : Nat) (shm : shm_s) : Delivery :=
  if sig = SIGSEGV ∧ debug = false then Delivery.ran shm (Control.exited EXIT_SUCCESS)
  else signal_plane_spec debug rtmin rtmax sig shm

/-- The order on published exit reasons the specification names:
RUNNING < SIGINT < KERNEL_TAINTED < FATAL. The two members it does not place
have no rank. -/
def exit_reason_rank : exit_reason_t → Option Nat
  | exit_reason_t.STILL_RUNNING => some 0
  | exit_reason_t.EXIT_SIGINT => some 1
  | exit_reason_t.EXIT_KERNEL_TAINTED => some 2
  | exit_reason_t.EXIT_FATAL => some 3
  | _ => none

/-- Whether `a` is at most as strong as `b` in that order (every member is at most as
strong as itself). -/
def exit_reason_le (a b : exit_reason_t) : Bool :=
  decide (a = b) ||
    match exit_reason_rank a, exit_reason_rank b with
    | some x, some y => decide (x ≤ y)
    | _, _ => false

/-! ## Start-up (`trinity.c`) -/

/-- A function either returns a value or ends the process through `exit(status)`. -/
inductive Outcome (α : Type)
  | ret (a : α)
  | exit (status : Int)
  deriving DecidableEq, Repr

/-- What `create_shm` obtains from outside: whether `mmap` succeeded, the globals
`user_specified_children` and `seed` (through `init_seed`), `sysconf(_SC_NPROCESSORS_ONLN)`,
`getpid()`, and the constants `MAX_NR_CHILDREN` and `EMPTY_PIDSLOT` of headers that
are not among the sources. -/
structure shm_inputs where
  mmap_ok : Bool
  user_specified_children : Nat
  nprocessors_onln : Int
  MAX_NR_CHILDREN : Nat
  EMPTY_PIDSLOT : Int
  getpid : Int
  init_seed : Nat

/-- The 32-bit signed value all four of whose bytes are `b mod 256` (what `memset` leaves
in every `pid_t` of `shm->pids`). -/
def memset_int (b : Int) : Int :=
  let u := (b % 256) * 0x01010101
  if u < 2 ^ 31 then u else u - 2 ^ 32

/-- The function `create_shm`: its return value and the control block it leaves mapped
(`none` when `mmap` failed). -/
def create_shm (inp : shm_inputs) : Outcome (Int × Option shm_s) :=
  if inp.mmap_ok = false then Outcome.ret (-1, none)
  else
    let shm := shm_zeroed
    let shm := { shm with execcount := 1 }
    let shm := { shm with regenerate := 0 }
    let shm :=
      if inp.user_specified_children ≠ 0 then
        { shm with max_children := inp.user_specified_children }
      else { shm with max_children := (inp.nprocessors_onln % 2 ^ 32).toNat }
    if shm.max_children > inp.MAX_NR_CHILDREN then Outcome.exit EXIT_FAILURE
    else
      let shm := { shm with
        pids := List.replicate inp.MAX_NR_CHILDREN (memset_int inp.EMPTY_PIDSLOT) }
      let shm := { shm with parentpid := inp.getpid }
      let shm := { shm with seed := inp.init_seed }
      Outcome.ret (0, some shm)

/-- The truth values of `trinity.h`. -/
def TRUE : Int := 1
/-- The false value of `trinity.h`. -/
def FALSE : Int := 0
/-- The group selector meaning that no `--group` was given. -/
def GROUP_NONE : Nat := 0

/-- What `main` obtains from its collaborators. A collaborator that may end the process
itself has an `Option Int` outcome: `some status` when it called `exit(status)`. -/
structure main_inputs where
  getuid : Nat
  dangerous : Bool
  shm_in : shm_inputs
  desired_group : Nat
  setup_syscall_group : Int
  show_syscall_list : Bool
  validate_syscall_tables : Int
  logging : Bool
  open_logfiles : Option Int
  init_buffers : Option Int
  setup_fds : Option Int
  chdir : Int
  exit_reason_seen : exit_reason_t
  do_main_loop : Option Int

/-- The function `main` from the root check on: the status the process exits with. The
labels `cleanup_fds` and `cleanup_shm` only release resources and end in `exit(ret)`. -/
def main (inp : main_inputs) : Int :=
  let ret := EXIT_SUCCESS
  if inp.getuid = 0 ∧ inp.dangerous = false then EXIT_FAILURE
  else
    match create_shm inp.shm_in with
    | Outcome.exit status => status
    | Outcome.ret (r, _) =>
      if r ≠ 0 then EXIT_FAILURE
      else
        let ret := if inp.desired_group ≠ GROUP_NONE then inp.setup_syscall_group else ret
        if inp.desired_group ≠ GROUP_NONE ∧ ret = FALSE then EXIT_FAILURE
        else if inp.show_syscall_list = true then ret
        else if inp.validate_syscall_tables = FALSE then ret
        else
          match (if inp.logging = true then inp.open_logfiles else none) with
          | some status => status
          | none =>
            match inp.init_buffers with
            | some status => status
            | none =>
              match inp.setup_fds with
              | some status => status
              | none =>
                let ret := inp.chdir
                if inp.exit_reason_seen ≠ exit_reason_t.STILL_RUNNING then ret
                else
                  match inp.do_main_loop with
                  | some status => status
                  | none => EXIT_SUCCESS

/-! ## Log stripping (`log.c`) -/

/-- The escape character that starts every ANSI code. -/
def ESC : Nat := 0x1b

/-- The arrays `ANSI_RED` .. `ANSI_WHITE`: ESC `[1;3Xm` with `X` the colour digit. -/
def ansi_colour (digit : Nat) : List Nat := [ESC, 0x5b, 0x31, 0x3b, 0x33, digit, 0x6d]
/-- Bold red. -/
def ANSI_RED : List Nat := ansi_colour 0x31
/-- Bold green. -/
def ANSI_GREEN : List Nat := ansi_colour 0x32
/-- Bold yellow. -/
def ANSI_YELLOW : List Nat := ansi_colour 0x33
/-- Bold blue. -/
def ANSI_BLUE : List Nat := ansi_colour 0x34
/-- Bold magenta. -/
def ANSI_MAGENTA : List Nat := ansi_colour 0x35
/-- Bold cyan. -/
def ANSI_CYAN : List Nat := ansi_colour 0x36
/-- Bold white. -/
def ANSI_WHITE : List Nat := ansi_colour 0x37
/-- The array `ANSI_RESET`: ESC `[0m`. -/
def ANSI_RESET : List Nat := [ESC, 0x5b, 0x30, 0x6d]

/-- The eight codes the logger emits. -/
def ansi_codes : List (List Nat) :=
  [ANSI_RED, ANSI_GREEN, ANSI_YELLOW, ANSI_BLUE, ANSI_MAGENTA, ANSI_CYAN, ANSI_WHITE, ANSI_RESET]

/-- Width of `unsigned int`. -/
def UINT_MOD : Nat := 2 ^ 32

/-- The call `strlen(buf)`: the index of the first NUL, `none` when the scan leaves the buffer. -/
def strlen : List Nat → Option Nat
  | [] => none
  | b :: rest => if b = 0 then some 0 else (strlen rest).map (fun n => n + 1)

/-- The `for` loop of `strip_ansi` on a buffer of `buf.length` bytes: `i` is the loop
index and `to_off` the offset of the write pointer from the start of the buffer.
Arithmetic on `i` is `unsigned int` arithmetic; a read or write outside the buffer gives `none`, as does running out of
fuel. The result is the final write offset and buffer. -/
def strip_ansi_loop (len buflen : Nat) : Nat → Nat → Nat → List Nat → Option (Nat × List Nat)
  | 0, i, to_off, buf =>
    if i < len ∧ (i + 2) % UINT_MOD < buflen then none else some (to_off, buf)
  | fuel + 1, i, to_off, buf =>
    if i < len ∧ (i + 2) % UINT_MOD < buflen then
      match buf[i]? with
      | none => none
      | some ch =>
        if to_off < buf.length then
          let buf1 := buf.set to_off ch
          match buf1[i]? with
          | none => none
          | some ch1 =>
            if ch1 = ESC then
              match buf1[(i + 2) % UINT_MOD]? with
              | none => none
              | some c2 =>
                let i1 := if c2 = 0x31 then (i + 6) % UINT_MOD else (i + 3) % UINT_MOD
                strip_ansi_loop len buflen fuel ((i1 + 1) % UINT_MOD) to_off buf1
            else strip_ansi_loop len buflen fuel ((i + 1) % UINT_MOD) (to_off + 1) buf1
        else none
    else some (to_off, buf)

/-- The function `strip_ansi` on the buffer `ansibuf`, with the global `monochrome`. The
loop gets `len` units of fuel, one for each byte of the string. -/
def strip_ansi (monochrome : Bool) (ansibuf : List Nat) (buflen : Nat) : Option (List Nat) :=
  if monochrome = true then some ansibuf
  else
    match strlen ansibuf with
    | none => none
    | some n =>
      let len := n % UINT_MOD
      match strip_ansi_loop len buflen len 0 0 ansibuf with
      | none => none
      | some (to_off, buf) => if to_off < buf.length then some (buf.set to_off 0) else none

/-- A piece of a log line: plain text or one of the ANSI codes. -/
inductive Piece
  | text (s : List Nat)
  | code (c : List Nat)
  deriving DecidableEq, Repr

/-- Text is made of non-NUL bytes other than ESC; a code is one of the eight. -/
def Piece.wf : Piece → Prop
  | Piece.text s => ∀ b ∈ s, b ≠ 0 ∧ b ≠ ESC
  | Piece.code c => c ∈ ansi_codes

/-- The bytes of a line: all pieces in order. -/
def render : List Piece → List Nat
  | [] => []
  | Piece.text s :: ps => s ++ render ps
  | Piece.code c :: ps => c ++ render ps

/-- The text of a line: the text pieces in order. -/
def plain : List Piece → List Nat
  | [] => []
  | Piece.text s :: ps => s ++ plain ps
  | Piece.code _ :: ps => plain ps

/-- The C string held in a buffer: the bytes before the first NUL. -/
def cstring (buf : List Nat) : List Nat := buf.takeWhile (fun b => b ≠ 0)

/-- The state of the loop of `strip_ansi` after it has consumed the first `i` bytes of the
original buffer `orig`: the buffer still has its size, the write offset has not overtaken
the read index, the first `to_off` bytes are the text `acc` copied so far, and the bytes
from `i` on are untouched. -/
def strip_inv (orig : List Nat) (i to_off : Nat) (acc buf : List Nat) : Prop :=
  buf.length = orig.length ∧ to_off ≤ i ∧ acc.length = to_off ∧
    (∀ k, k < to_off → buf[k]? = acc[k]?) ∧ (∀ k, i ≤ k → buf[k]? = orig[k]?)

/-- The loop of `strip_ansi` handles the remaining bytes `rest` correctly: entered in a
state that satisfies `strip_inv` just before `rest`, with one unit of fuel per byte, it
ends in a state that satisfies `strip_inv` at the end of the string, having appended the
text `txt`. -/
def strip_goal (orig tail : List Nat) (len buflen : Nat) (rest txt : List Nat) : Prop :=
  ∀ (pre acc buf : List Nat) (to_off fuel : Nat),
    orig = pre ++ (rest ++ 0 :: tail) → len = pre.length + rest.length →
    strip_inv orig pre.length to_off acc buf → rest.length ≤ fuel →
    ∃ to1 buf1, strip_ansi_loop len buflen fuel pre.length to_off buf = some (to1, buf1) ∧
      strip_inv orig len to1 (acc ++ txt) buf1

/-- A log line with two codes: "ab", bold red, "x", reset. -/
def line_red_x : List Piece :=
  [Piece.text [0x61, 0x62], Piece.code ANSI_RED, Piece.text [0x78], Piece.code ANSI_RESET]

/-! ## Concrete runs -/

/-- A world whose `rand()` always returns 0 and whose providers always hand out
descriptor 0. -/
def world_zero : World :=
  { rand := fun _ => 0, get := fun _ _ => 0, rand_range := fun _ _ _ => 5, max_children := 8 }

/-- A world whose `rand()` always returns 0 and whose providers always hand out
descriptor 9. -/
def world_nine : World :=
  { rand := fun _ => 0, get := fun _ _ => 9, rand_range := fun _ _ _ => 5, max_children := 8 }

/-- A world whose `rand()` always returns 1 (reuse branch, provider 1) and whose providers
hand out descriptor 0 on the first call and descriptor 9 afterwards. -/
def world_late : World :=
  { rand := fun _ => 1, get := fun _ k => if k = 0 then 0 else 9,
    rand_range := fun _ _ _ => 5, max_children := 8 }

/-- A control block holding descriptor 7 with an expired lifetime. -/
def shm_seven : shm_s := { shm_zeroed with current_fd := 7 }

/-- A control block holding descriptor 7 for two more calls. -/
def shm_seven_live : shm_s := { shm_zeroed with current_fd := 7, fd_lifetime := 2 }

/-- The cursor of a process that has made no call yet. -/
def cursor_start : Cursor := { nrand := 0, nget := 0, nrange := 0 }

/-- An unprivileged start on a machine with four processors. -/
def shm_inputs_plain : shm_inputs :=
  { mmap_ok := true, user_specified_children := 0, nprocessors_onln := 4,
    MAX_NR_CHILDREN := 64, EMPTY_PIDSLOT := -1, getpid := 4242, init_seed := 1 }

/-- A start without `--group` and without `--list` in which `validate_syscall_tables`
finds no enabled syscall. -/
def main_inputs_none_enabled : main_inputs :=
  { getuid := 1000, dangerous := false, shm_in := shm_inputs_plain,
    desired_group := GROUP_NONE, setup_syscall_group := TRUE, show_syscall_list := false,
    validate_syscall_tables := FALSE, logging := false, open_logfiles := none,
    init_buffers := none, setup_fds := none, chdir := 0,
    exit_reason_seen := exit_reason_t.STILL_RUNNING, do_main_loop := none }

/-- A start with `--list` and a `--group` that `setup_syscall_group` accepts. -/
def main_inputs_list_group : main_inputs :=
  { main_inputs_none_enabled with
    desired_group := 1, show_syscall_list := true, validate_syscall_tables := TRUE }

/-- A process that has published a kernel taint. -/
def proc_tainted : Proc :=
  { shm := { shm_zeroed with exit_reason := exit_reason_t.EXIT_KERNEL_TAINTED },
    disp := fun _ => sighandler_t.handler }

/-! ## Theorems: random source -/

theorem rand_lt_of_le_RAND_MAX {x : Nat} (h : x ≤ RAND_MAX) : x < 2 ^ 31 := by
  unfold RAND_MAX at h; omega

theorem mod_ULONG_of_small {x : Nat} (h : x < 2 ^ 31) : x % ULONG_MOD = x := by
  unfold ULONG_MOD; exact Nat.mod_eq_of_lt (by omega)

theorem shift32_mod_ULONG {x : Nat} (h : x < 2 ^ 31) : (x <<< 32) % ULONG_MOD = x <<< 32 := by
  unfold ULONG_MOD
  apply Nat.mod_eq_of_lt
  rw [Nat.shiftLeft_eq]
  omega

/-- Bits 31 and 63 of `(hi << 32) | lo` are clear when both halves are below `2 ^ 31`. -/
theorem halves_bits_clear {hi lo : Nat} (hhi : hi < 2 ^ 31) (hlo : lo < 2 ^ 31) :
    ((hi <<< 32) ||| lo).testBit 31 = false ∧ ((hi <<< 32) ||| lo).testBit 63 = false ∧
      ((hi <<< 32) ||| lo) < 2 ^ 63 := by
  have hlo63 : lo < 2 ^ 63 := by omega
  have hsh : hi <<< 32 < 2 ^ 63 := by rw [Nat.shiftLeft_eq]; omega
  refine ⟨?_, ?_, Nat.or_lt_two_pow hsh hlo63⟩
  · simp [Nat.testBit_or, Nat.testBit_shiftLeft, Nat.testBit_lt_two_pow hlo]
  · simp [Nat.testBit_or, Nat.testBit_shiftLeft, Nat.testBit_lt_two_pow hlo63,
      Nat.testBit_lt_two_pow hhi]

/-- The value and draw count of `rand64` in each of the three cases. -/
theorem rand64_cases (rand : Nat → Nat) (n : Nat) (hdraw : ∀ k, rand k ≤ RAND_MAX) :
    (rand n % 3 = 0 → rand64 rand n =
        (((rand (n + 1) &&& rand (n + 2)) <<< 32) ||| (rand (n + 3) &&& rand (n + 4)), n + 5)) ∧
    (rand n % 3 = 1 → rand64 rand n =
        (((rand (n + 1) ||| rand (n + 2)) <<< 32) ||| (rand (n + 3) ||| rand (n + 4)), n + 5)) ∧
    (rand n % 3 = 2 → rand64 rand n = ((rand (n + 1) <<< 32) ||| rand (n + 2), n + 3)) := by
  have h1 := rand_lt_of_le_RAND_MAX (hdraw (n + 1))
  have h2 := rand_lt_of_le_RAND_MAX (hdraw (n + 2))
  have h3 := rand_lt_of_le_RAND_MAX (hdraw (n + 3))
  have h4 := rand_lt_of_le_RAND_MAX (hdraw (n + 4))
  refine ⟨?_, ?_, ?_⟩
  · intro h
    simp only [rand64, h, mod_ULONG_of_small h1, mod_ULONG_of_small h2, mod_ULONG_of_small h3,
      mod_ULONG_of_small h4, shift32_mod_ULONG (Nat.and_lt_two_pow _ h2)]
  · intro h
    simp only [rand64, h, mod_ULONG_of_small h1, mod_ULONG_of_small h2, mod_ULONG_of_small h3,
      mod_ULONG_of_small h4, shift32_mod_ULONG (Nat.or_lt_two_pow h1 h2)]
  · intro h
    simp only [rand64, h, mod_ULONG_of_small h1, mod_ULONG_of_small h2, shift32_mod_ULONG h1]

/-- C5: on a 64-bit build, with every draw in [0, RAND_MAX], `rand64` returns
((a AND b) << 32) OR (c AND d) when the first draw s has s mod 3 = 0,
((a OR b) << 32) OR (c OR d) when s mod 3 = 1 and (a << 32) OR b when s mod 3 = 2;
one of the three cases applies for every s, so the default branch (value 0 after the
selector draw alone) is never taken: further draws are always made. -/
theorem rand64_three_distributions (rand : Nat → Nat) (n : Nat)
    (hdraw : ∀ k, rand k ≤ RAND_MAX) :
    (rand n % 3 = 0 ∨ rand n % 3 = 1 ∨ rand n % 3 = 2) ∧
    (rand n % 3 = 0 → rand64 rand n =
        (((rand (n + 1) &&& rand (n + 2)) <<< 32) ||| (rand (n + 3) &&& rand (n + 4)), n + 5)) ∧
    (rand n % 3 = 1 → rand64 rand n =
        (((rand (n + 1) ||| rand (n + 2)) <<< 32) ||| (rand (n + 3) ||| rand (n + 4)), n + 5)) ∧
    (rand n % 3 = 2 → rand64 rand n = ((rand (n + 1) <<< 32) ||| rand (n + 2), n + 3)) ∧
    (rand64 rand n).2 ≠ n + 1 := by
  obtain ⟨c0, c1, c2⟩ := rand64_cases rand n hdraw
  have hs : rand n % 3 = 0 ∨ rand n % 3 = 1 ∨ rand n % 3 = 2 := by omega
  refine ⟨hs, c0, c1, c2, ?_⟩
  rcases hs with h | h | h
  · rw [c0 h]; simp
  · rw [c1 h]; simp
  · rw [c2 h]; simp

/-- C5 at the stream 3, 5, 6, 9, 12, ...: the selector 3 picks the AND distribution. -/
theorem rand64_three_distributions_witness :
    (∀ k, (fun k => [3, 5, 6, 9, 12].getD k 7) k ≤ RAND_MAX) ∧
    rand64 (fun k => [3, 5, 6, 9, 12].getD k 7) 0 = (((5 &&& 6) <<< 32) ||| (9 &&& 12), 5) := by
  have hd : ∀ k, (fun k => [3, 5, 6, 9, 12].getD k 7) k ≤ RAND_MAX := by
    intro k
    rcases k with _ | _ | _ | _ | _ | _ <;> simp [RAND_MAX]
  exact ⟨hd, (rand64_three_distributions _ 0 hd).2.1 (by decide)⟩

/-- C10: on a 64-bit build, with every draw in [0, 2^31 - 1], the value `rand64` returns has
bits 31 and 63 clear, is below 2^63, and is never the all-ones word. -/
theorem rand64_bits_31_63_clear (rand : Nat → Nat) (n : Nat)
    (hdraw : ∀ k, rand k ≤ 2 ^ 31 - 1) :
    (rand64 rand n).1.testBit 31 = false ∧ (rand64 rand n).1.testBit 63 = false ∧
    (rand64 rand n).1 < 2 ^ 63 ∧ (rand64 rand n).1 ≠ 2 ^ 64 - 1 := by
  have hdraw2 : ∀ k, rand k ≤ RAND_MAX := hdraw
  obtain ⟨c0, c1, c2⟩ := rand64_cases rand n hdraw2
  have h1 := rand_lt_of_le_RAND_MAX (hdraw2 (n + 1))
  have h2 := rand_lt_of_le_RAND_MAX (hdraw2 (n + 2))
  have h3 := rand_lt_of_le_RAND_MAX (hdraw2 (n + 3))
  have h4 := rand_lt_of_le_RAND_MAX (hdraw2 (n + 4))
  have key : (rand64 rand n).1.testBit 31 = false ∧ (rand64 rand n).1.testBit 63 = false ∧
      (rand64 rand n).1 < 2 ^ 63 := by
    have hs : rand n % 3 = 0 ∨ rand n % 3 = 1 ∨ rand n % 3 = 2 := by omega
    rcases hs with h | h | h
    · rw [c0 h]
      exact halves_bits_clear (Nat.and_lt_two_pow _ h2) (Nat.and_lt_two_pow _ h4)
    · rw [c1 h]
      exact halves_bits_clear (Nat.or_lt_two_pow h1 h2) (Nat.or_lt_two_pow h3 h4)
    · rw [c2 h]
      exact halves_bits_clear h1 h2
  refine ⟨key.1, key.2.1, key.2.2, ?_⟩
  have := key.2.2
  omega

/-- C10 at the stream whose every draw is 2^31 - 1: the OR distribution returns 2^31 - 1 in
both halves, the largest value `rand64` can produce. -/
theorem rand64_bits_31_63_clear_witness :
    (∀ k, (fun _ : Nat => 2 ^ 31 - 1) k ≤ 2 ^ 31 - 1) ∧
    (rand64 (fun _ => 2 ^ 31 - 1) 0).1 < 2 ^ 63 :=
  ⟨fun _ => le_refl _, (rand64_bits_31_63_clear (fun _ => 2 ^ 31 - 1) 0 (fun _ => le_refl _)).2.2.1⟩

/-! ## Theorems: signal plane -/

/-- A run of `signal` calls over a list of signal numbers rebinds exactly the catchable
members of the list. -/
theorem foldl_set_disposition (catchable : Nat → Bool) (h : sighandler_t) (l : List Nat)
    (tbl : Nat → sighandler_t) (n : Nat) :
    (l.foldl (fun t i => set_disposition catchable t i h) tbl) n =
      if n ∈ l ∧ catchable n = true then h else tbl n := by
  induction l generalizing tbl with
  | nil => simp
  | cons a l ih =>
    rw [List.foldl_cons, ih]
    by_cases hn : n ∈ l ∧ catchable n = true
    · have : n ∈ a :: l ∧ catchable n = true := ⟨List.mem_cons_of_mem _ hn.1, hn.2⟩
      simp [hn, this]
    · by_cases ha : n = a
      · subst ha
        by_cases hc : catchable n = true
        · simp [set_disposition, hc]
        · simp [set_disposition, hc]
      · have hmem : (n ∈ a :: l ∧ catchable n = true) ↔ (n ∈ l ∧ catchable n = true) := by
          simp [ha]
        simp only [hmem, hn, if_false, set_disposition, ha, false_and]

/-- The disposition `mask_signals` leaves for a catchable signal in 1..511, when the
realtime signals lie above the classic ones. -/
theorem mask_signals_disp (catchable : Nat → Bool) (debug : Bool) (rtmin rtmax : Nat)
    (tbl : Nat → sighandler_t) (sig : Nat) (h1 : 1 ≤ sig) (h2 : sig < 512)
    (hc : catchable sig = true) (hrt : 31 < rtmin) :
    mask_signals catchable debug rtmin rtmax tbl sig =
      if sig = SIGCHLD then sighandler_t.SIG_DFL
      else if sig = SIGFPE ∨ sig = SIGXCPU ∨ sig = SIGTSTP ∨ sig = SIGWINCH then
        sighandler_t.SIG_IGN
      else if rtmin ≤ sig ∧ sig ≤ rtmax then sighandler_t.SIG_IGN
      else if sig = SIGSEGV ∧ debug = true then sighandler_t.SIG_DFL
      else sighandler_t.handler := by
  have hin : sig ∈ List.range' 1 511 := by
    rw [List.mem_range'_1]; omega
  have hrtmem : sig ∈ List.range' rtmin (rtmax + 1 - rtmin) ↔ rtmin ≤ sig ∧ sig ≤ rtmax := by
    rw [List.mem_range'_1]; omega
  unfold mask_signals
  simp only [SIGCHLD, SIGFPE, SIGXCPU, SIGTSTP, SIGWINCH, SIGSEGV] at *
  cases debug
  · simp only [Bool.false_eq_true, if_false, and_false]
    rw [foldl_set_disposition]
    simp only [hrtmem, hc, and_true]
    by_cases hr : rtmin ≤ sig ∧ sig ≤ rtmax
    · have e1 : sig ≠ 17 := by omega
      have e2 : ¬ (sig = 8 ∨ sig = 24 ∨ sig = 20 ∨ sig = 28) := by omega
      simp [hr, e1, e2]
    · simp only [hr, if_false, set_disposition, hc, and_true]
      rw [foldl_set_disposition]
      simp only [hin, hc, and_self, if_true]
      by_cases e28 : sig = 28
      · subst e28; simp [hc]
      by_cases e20 : sig = 20
      · subst e20; simp [hc]
      by_cases e24 : sig = 24
      · subst e24; simp [hc]
      by_cases e8 : sig = 8
      · subst e8; simp [hc]
      by_cases e17 : sig = 17
      · subst e17; simp [hc]
      simp [e28, e20, e24, e8, e17]
  · simp only [if_true, and_true, set_disposition, hc]
    by_cases e11 : sig = 11
    · subst e11
      have hr : ¬ (rtmin ≤ 11 ∧ 11 ≤ rtmax) := by omega
      simp [hr, hc]
    simp only [e11, if_false]
    rw [foldl_set_disposition]
    simp only [hrtmem, hc, and_true]
    by_cases hr : rtmin ≤ sig ∧ sig ≤ rtmax
    · have e1 : sig ≠ 17 := by omega
      have e2 : ¬ (sig = 8 ∨ sig = 24 ∨ sig = 20 ∨ sig = 28) := by omega
      simp [hr, e1, e2]
    · simp only [hr, if_false, set_disposition, hc, and_true]
      rw [foldl_set_disposition]
      simp only [hin, hc, and_self, if_true]
      by_cases e28 : sig = 28
      · subst e28; simp [hc]
      by_cases e20 : sig = 20
      · subst e20; simp [hc]
      by_cases e24 : sig = 24
      · subst e24; simp [hc]
      by_cases e8 : sig = 8
      · subst e8; simp [hc]
      by_cases e17 : sig = 17
      · subst e17; simp [hc]
      simp [e28, e20, e24, e8, e17]

/-- Delivery of a catchable signal in 1..511 after `mask_signals` follows `signal_plane_code`. -/
theorem deliver_after_mask_signals (catchable : Nat → Bool) (debug : Bool) (rtmin rtmax : Nat)
    (tbl : Nat → sighandler_t) (shm : shm_s) (sig : Nat) (h1 : 1 ≤ sig) (h2 : sig < 512)
    (hc : catchable sig = true) (hrt : 31 < rtmin) :
    deliver catchable sig { shm := shm, disp := mask_signals catchable debug rtmin rtmax tbl } =
      signal_plane_code debug rtmin rtmax sig shm := by
  have hd := mask_signals_disp catchable debug rtmin rtmax tbl sig h1 h2 hc hrt
  unfold deliver
  simp only [hd]
  unfold signal_plane_code signal_plane_spec sighandler
  simp only [SIGCHLD, SIGFPE, SIGXCPU, SIGTSTP, SIGWINCH, SIGSEGV, SIGALRM, SIGINT] at *
  by_cases e17 : sig = 17
  · subst e17; cases debug <;> simp
  by_cases e2 : sig = 8 ∨ sig = 24 ∨ sig = 20 ∨ sig = 28
  · have e11 : sig ≠ 11 := by omega
    simp [e17, e2, e11]
  by_cases hr : rtmin ≤ sig ∧ sig ≤ rtmax
  · have e11 : sig ≠ 11 := by omega
    simp [e17, e2, hr, e11]
  by_cases e11 : sig = 11
  · subst e11
    cases debug
    · simp [hr]
    · simp [hr]
  by_cases e14 : sig = 14
  · subst e14
    have hr2 : ¬ (rtmin ≤ 14 ∧ 14 ≤ rtmax) := by omega
    simp [hr2]
  by_cases eint : sig = 2
  · subst eint
    have hr2 : ¬ (rtmin ≤ 2 ∧ 2 ≤ rtmax) := by omega
    simp [hr2]
  simp [e17, e2, hr, e11, e14, eint]

/-- C6, counterexample: outside debug mode a SIGSEGV delivered after `mask_signals` runs the
handler, which exits with the success code, whereas the table says it is ignored. -/
theorem sigsegv_not_ignored :
    deliver linux_catchable SIGSEGV
        { shm := shm_zeroed,
          disp := mask_signals linux_catchable false 34 64 (fun _ => sighandler_t.SIG_DFL) } =
      Delivery.ran shm_zeroed (Control.exited EXIT_SUCCESS) ∧
    signal_plane_spec false 34 64 SIGSEGV shm_zeroed = Delivery.ignored ∧
    deliver linux_catchable SIGSEGV
        { shm := shm_zeroed,
          disp := mask_signals linux_catchable false 34 64 (fun _ => sighandler_t.SIG_DFL) } ≠
      signal_plane_spec false 34 64 SIGSEGV shm_zeroed := by
  have h := deliver_after_mask_signals linux_catchable false 34 64
    (fun _ => sighandler_t.SIG_DFL) shm_zeroed SIGSEGV (by decide) (by decide) (by decide)
    (by decide)
  have h2 : signal_plane_code false 34 64 SIGSEGV shm_zeroed =
      Delivery.ran shm_zeroed (Control.exited EXIT_SUCCESS) := by decide
  have h3 : signal_plane_spec false 34 64 SIGSEGV shm_zeroed = Delivery.ignored := by decide
  rw [h, h2, h3]
  exact ⟨rfl, rfl, by decide⟩

/-- C6, amended: after `mask_signals`, for every catchable signal number in 1..511 (realtime
signals above 31), delivery follows the table in which SIGCHLD has the default action,
SIGFPE, SIGXCPU, SIGTSTP, SIGWINCH and SIGRTMIN..SIGRTMAX are ignored, SIGALRM and SIGINT
run their dedicated handler cases, SIGSEGV has the default action in debug mode, and every
other signal, SIGSEGV outside debug mode included, runs the handler and exits with the
success code. -/
theorem mask_signals_table (catchable : Nat → Bool) (debug : Bool) (rtmin rtmax : Nat)
    (tbl : Nat → sighandler_t) (shm : shm_s) (sig : Nat) (h1 : 1 ≤ sig) (h2 : sig < 512)
    (hc : catchable sig = true) (hrt : 31 < rtmin) :
    deliver catchable sig { shm := shm, disp := mask_signals catchable debug rtmin rtmax tbl } =
      signal_plane_code debug rtmin rtmax sig shm ∧
    (sig ≠ SIGSEGV ∨ debug = true →
      deliver catchable sig { shm := shm, disp := mask_signals catchable debug rtmin rtmax tbl } =
        signal_plane_spec debug rtmin rtmax sig shm) ∧
    (sig = SIGSEGV → debug = false →
      deliver catchable sig { shm := shm, disp := mask_signals catchable debug rtmin rtmax tbl } =
        Delivery.ran shm (Control.exited EXIT_SUCCESS)) := by
  have h := deliver_after_mask_signals catchable debug rtmin rtmax tbl shm sig h1 h2 hc hrt
  refine ⟨h, ?_, ?_⟩
  · intro hs
    rw [h]
    unfold signal_plane_code
    rcases hs with hs | hs
    · simp [hs]
    · simp [hs]
  · intro hs hd
    rw [h]
    unfold signal_plane_code
    simp [hs, hd]

/-- C6, amended, at SIGWINCH on Linux with debug on: the signal is ignored. -/
theorem mask_signals_table_witness :
    (1 ≤ SIGWINCH ∧ SIGWINCH < 512 ∧ linux_catchable SIGWINCH = true ∧ 31 < 34) ∧
    deliver linux_catchable SIGWINCH
        { shm := shm_zeroed,
          disp := mask_signals linux_catchable true 34 64 (fun _ => sighandler_t.SIG_DFL) } =
      signal_plane_code true 34 64 SIGWINCH shm_zeroed :=
  ⟨by decide,
   (mask_signals_table linux_catchable true 34 64 (fun _ => sighandler_t.SIG_DFL) shm_zeroed
      SIGWINCH (by decide) (by decide) (by decide) (by decide)).1⟩

/-- The handler's SIGINT case stores `EXIT_SIGINT` and touches nothing else. -/
theorem sighandler_sigint (catchable : Nat → Bool) (p : Proc) :
    sighandler catchable SIGINT p =
      ({ p with shm := { p.shm with exit_reason := exit_reason_t.EXIT_SIGINT } },
       Control.returned) := by
  simp [sighandler, SIGINT, SIGALRM]

/-- The handler's SIGALRM case zeroes `fd_lifetime`, re-installs itself and jumps. -/
theorem sighandler_sigalrm (catchable : Nat → Bool) (p : Proc) :
    sighandler catchable SIGALRM p =
      ({ shm := { p.shm with fd_lifetime := 0 },
         disp := set_disposition catchable p.disp SIGALRM sighandler_t.handler },
       Control.longjmp 1) := by
  simp [sighandler]

/-- C7, counterexample: a published KERNEL_TAINTED is replaced by the weaker SIGINT. -/
theorem sigint_weakens_tainted :
    proc_tainted.shm.exit_reason = exit_reason_t.EXIT_KERNEL_TAINTED ∧
    (sighandler linux_catchable SIGINT proc_tainted).1.shm.exit_reason =
      exit_reason_t.EXIT_SIGINT ∧
    exit_reason_le proc_tainted.shm.exit_reason
      (sighandler linux_catchable SIGINT proc_tainted).1.shm.exit_reason = false := by
  rw [sighandler_sigint]
  exact ⟨rfl, rfl, by decide⟩

/-- C7, amended: after the handler processes SIGINT, `exit_reason` is SIGINT whatever it was
before (RUNNING becomes SIGINT, and a published KERNEL_TAINTED or FATAL is overwritten by
SIGINT); no other field of the control block changes, the handler returns, and handling
SIGINT twice leaves the same control block as handling it once. -/
theorem sigint_overwrites_exit_reason (catchable : Nat → Bool) (p : Proc) :
    (sighandler catchable SIGINT p).1.shm =
      { p.shm with exit_reason := exit_reason_t.EXIT_SIGINT } ∧
    (sighandler catchable SIGINT p).2 = Control.returned ∧
    (p.shm.exit_reason = exit_reason_t.STILL_RUNNING →
      exit_reason_le p.shm.exit_reason
        (sighandler catchable SIGINT p).1.shm.exit_reason = true) ∧
    (p.shm.exit_reason = exit_reason_t.EXIT_KERNEL_TAINTED ∨
        p.shm.exit_reason = exit_reason_t.EXIT_FATAL →
      (sighandler catchable SIGINT p).1.shm.exit_reason = exit_reason_t.EXIT_SIGINT ∧
      exit_reason_le p.shm.exit_reason
        (sighandler catchable SIGINT p).1.shm.exit_reason = false) ∧
    (sighandler catchable SIGINT (sighandler catchable SIGINT p).1).1.shm =
      (sighandler catchable SIGINT p).1.shm := by
  simp only [sighandler_sigint]
  refine ⟨by trivial, by trivial, ?_, ?_, by trivial⟩
  · intro h
    simp only [h]
    decide
  · intro h
    rcases h with h | h <;> simp only [h] <;> exact ⟨trivial, by decide⟩

/-- C7, amended, at a process that has published a kernel taint. -/
theorem sigint_overwrites_exit_reason_witness :
    (proc_tainted.shm.exit_reason = exit_reason_t.EXIT_KERNEL_TAINTED ∨
      proc_tainted.shm.exit_reason = exit_reason_t.EXIT_FATAL) ∧
    (sighandler linux_catchable SIGINT proc_tainted).1.shm.exit_reason =
      exit_reason_t.EXIT_SIGINT :=
  ⟨Or.inl rfl,
   ((sigint_overwrites_exit_reason linux_catchable proc_tainted).2.2.2.1 (Or.inl rfl)).1⟩

/-! ## Theorems: start-up -/

/-- C8, the code at two failing inputs: when `validate_syscall_tables` reports that no
syscall is enabled (no group, no list) `main` exits with status 0, and when only the
syscall list is requested after a group was selected `main` exits with status 1, the TRUE
that `setup_syscall_group` returned. -/
theorem main_exit_status_slips :
    main main_inputs_none_enabled = 0 ∧ main main_inputs_list_group = 1 := by
  constructor <;> decide

/-! ## Theorems: fd registry -/

theorem draw_advance (w : World) (c : Cursor) (k j : Nat) :
    draw w (advance c k) j = draw w c (k + j) := by
  simp [draw, advance, Nat.add_assoc]

theorem draw_bump (w : World) (c : Cursor) (k x j : Nat) :
    draw w { advance c k with nrange := x } j = draw w c (k + j) := by
  simp [draw, advance, Nat.add_assoc]

theorem advance_advance (c : Cursor) (k l : Nat) :
    advance (advance c k) l = advance c (k + l) := by
  simp [advance, Nat.add_assoc]

/-- The fresh-draw loop entered with a non-negative `fd` returns it at once. -/
theorem loop_nonneg (w : World) (fuel : Nat) (fd : Int) (c : Cursor) (h : 0 ≤ fd) :
    get_new_random_fd_loop w fuel fd c = some (fd, c) := by
  have hn : ¬ fd < 0 := by omega
  cases fuel <;> simp [get_new_random_fd_loop, hn]

/-- The fresh-draw loop entered with a negative `fd` makes one draw and goes on. -/
theorem loop_neg (w : World) (fuel : Nat) (fd : Int) (c : Cursor) (h : fd < 0) :
    get_new_random_fd_loop w (fuel + 1) fd c =
      get_new_random_fd_loop w fuel (draw w c 0) (advance c 1) := by
  simp [get_new_random_fd_loop, h, draw, advance]

/-- If the fresh-draw loop returns, it returns the first non-negative draw. -/
theorem loop_sound (w : World) (fuel : Nat) :
    ∀ (fd : Int) (c : Cursor) (r : Int) (c1 : Cursor), fd < 0 →
      get_new_random_fd_loop w fuel fd c = some (r, c1) →
      ∃ m, (∀ j, j < m → draw w c j < 0) ∧ 0 ≤ draw w c m ∧ r = draw w c m ∧
        c1 = advance c (m + 1) := by
  induction fuel with
  | zero =>
    intro fd c r c1 hfd h
    simp [get_new_random_fd_loop, hfd] at h
  | succ fuel ih =>
    intro fd c r c1 hfd h
    rw [loop_neg w fuel fd c hfd] at h
    by_cases h0 : 0 ≤ draw w c 0
    · rw [loop_nonneg w fuel _ _ h0] at h
      simp only [Option.some.injEq, Prod.mk.injEq] at h
      exact ⟨0, fun j hj => absurd hj (Nat.not_lt_zero j), h0, h.1.symm, h.2.symm⟩
    · have hneg : draw w c 0 < 0 := by omega
      obtain ⟨m, hlt, hge, hr, hc⟩ := ih _ _ r c1 hneg h
      refine ⟨m + 1, ?_, ?_, ?_, ?_⟩
      · intro j hj
        cases j with
        | zero => exact hneg
        | succ j =>
          have := hlt j (by omega)
          rw [draw_advance] at this
          rwa [Nat.add_comm 1 j] at this
      · rw [draw_advance] at hge
        rwa [Nat.add_comm 1 m] at hge
      · rw [draw_advance] at hr
        rwa [Nat.add_comm 1 m] at hr
      · rw [advance_advance] at hc
        rw [hc, Nat.add_comm 1 (m + 1)]

/-- With enough fuel the fresh-draw loop returns the first non-negative draw. -/
theorem loop_complete (w : World) (m : Nat) :
    ∀ (fuel : Nat) (fd : Int) (c : Cursor), fd < 0 → (∀ j, j < m → draw w c j < 0) →
      0 ≤ draw w c m → m + 1 ≤ fuel →
      get_new_random_fd_loop w fuel fd c = some (draw w c m, advance c (m + 1)) := by
  induction m with
  | zero =>
    intro fuel fd c hfd _ hge hfuel
    obtain ⟨f, rfl⟩ : ∃ f, fuel = f + 1 := ⟨fuel - 1, by omega⟩
    rw [loop_neg w f fd c hfd, loop_nonneg w f _ _ hge]
  | succ m ih =>
    intro fuel fd c hfd hlt hge hfuel
    obtain ⟨f, rfl⟩ : ∃ f, fuel = f + 1 := ⟨fuel - 1, by omega⟩
    rw [loop_neg w f fd c hfd]
    have h0 : draw w c 0 < 0 := hlt 0 (by omega)
    have := ih f (draw w c 0) (advance c 1) h0
      (by intro j hj; rw [draw_advance]; exact hlt (1 + j) (by omega))
      (by rw [draw_advance, Nat.add_comm 1 m]; exact hge) (by omega)
    rw [this, draw_advance, advance_advance, Nat.add_comm 1 m, Nat.add_comm 1 (m + 1)]

/-- Among draws of which one is non-negative there is a first non-negative one. -/
theorem first_nonneg (f : Nat → Int) (m : Nat) (h : 0 ≤ f m) :
    ∃ m0, m0 ≤ m ∧ 0 ≤ f m0 ∧ ∀ j, j < m0 → f j < 0 := by
  classical
  have hex : ∃ n, 0 ≤ f n := ⟨m, h⟩
  refine ⟨Nat.find hex, Nat.find_min' hex h, Nat.find_spec hex, ?_⟩
  intro j hj
  have := Nat.find_min hex hj
  omega

/-- The function `get_new_random_fd` returns whenever some draw is non-negative. -/
theorem get_new_random_fd_returns (w : World) (c : Cursor) (m fuel : Nat)
    (h : 0 ≤ draw w c m) (hfuel : m + 1 ≤ fuel) :
    ∃ m0, m0 ≤ m ∧ 0 ≤ draw w c m0 ∧ (∀ j, j < m0 → draw w c j < 0) ∧
      get_new_random_fd w fuel c = some (draw w c m0, advance c (m0 + 1)) := by
  obtain ⟨m0, hle, hge, hlt⟩ := first_nonneg (draw w c) m h
  exact ⟨m0, hle, hge, hlt,
    loop_complete w m0 fuel (-1) c (by decide) hlt hge (by omega)⟩

/-- A pass through `regen` with a live, non-zero descriptor reuses it. -/
theorem regen_reuse (w : World) (inner fuel : Nat) (shm : shm_s) (c : Cursor)
    (hl : shm.fd_lifetime ≠ 0) (hf : shm.current_fd ≠ 0) :
    regen w inner (fuel + 1) shm c =
      some (shm.current_fd, { shm with fd_lifetime := shm.fd_lifetime - 1 }, c) := by
  simp [regen, hl, hf]

/-- A pass through `regen` with a live descriptor 0 zeroes the lifetime and starts over. -/
theorem regen_zero_fd (w : World) (inner fuel : Nat) (shm : shm_s) (c : Cursor)
    (hl : shm.fd_lifetime ≠ 0) (hf : shm.current_fd = 0) :
    regen w inner (fuel + 1) shm c = regen w inner fuel { shm with fd_lifetime := 0 } c := by
  simp [regen, hl, hf]

/-- A pass through `regen` with lifetime 0 draws afresh, and starts over on descriptor 0. -/
theorem regen_expired (w : World) (inner fuel : Nat) (shm : shm_s) (c c1 : Cursor) (fd : Int)
    (hl : shm.fd_lifetime = 0) (hg : get_new_random_fd w inner c = some (fd, c1)) :
    regen w inner (fuel + 1) shm c =
      if fd = 0 then
        regen w inner fuel { shm with current_fd := fd, fd_lifetime := 0 }
          { c1 with nrange := c1.nrange + 1 }
      else
        some (fd, { shm with current_fd := fd,
                             fd_lifetime := w.rand_range 5 w.max_children c1.nrange },
              { c1 with nrange := c1.nrange + 1 }) := by
  simp [regen, hl, hg]

theorem regen_expired_none (w : World) (inner fuel : Nat) (shm : shm_s) (c : Cursor)
    (hl : shm.fd_lifetime = 0) (hg : get_new_random_fd w inner c = none) :
    regen w inner (fuel + 1) shm c = none := by
  simp [regen, hl, hg]

theorem regenerated_first (w : World) (shm : shm_s) (c : Cursor) (m : Nat) :
    (({ shm with current_fd := draw w c m,
                 fd_lifetime := w.rand_range 5 w.max_children (advance c (m + 1)).nrange },
      { advance c (m + 1) with nrange := (advance c (m + 1)).nrange + 1 }) : shm_s × Cursor) =
      regenerated w shm c m 0 := by
  simp [regenerated, advance]

theorem regenerated_shift (w : World) (shm : shm_s) (c : Cursor) (x : Int) (m0 m z : Nat) :
    regenerated w { shm with current_fd := x, fd_lifetime := 0 }
        { advance c (m0 + 1) with nrange := (advance c (m0 + 1)).nrange + 1 } m z =
      regenerated w shm c (m0 + 1 + m) (z + 1) := by
  have e1 : c.nrange + 1 + z = c.nrange + (z + 1) := by omega
  have e2 : c.nrand + (m0 + 1) + (m + 1) = c.nrand + (m0 + 1 + m + 1) := by omega
  have e3 : c.nget + (m0 + 1) + (m + 1) = c.nget + (m0 + 1 + m + 1) := by omega
  have e4 : c.nrand + (m0 + 1) + m = c.nrand + (m0 + 1 + m) := by omega
  have e5 : c.nget + (m0 + 1) + m = c.nget + (m0 + 1 + m) := by omega
  simp [regenerated, advance, draw, e1, e2, e3, e4, e5]

theorem regenerated_relabel (w : World) (shm : shm_s) (c : Cursor) (m z : Nat) :
    regenerated w { shm with fd_lifetime := 0 } c m z = regenerated w shm c m z := rfl

/-- What a returning run of `regen` has done: either it reused a live non-zero descriptor,
or it regenerated, returning the first positive draw after draws that were all
non-positive. -/
theorem regen_sound (w : World) (inner fuel : Nat) :
    ∀ (shm : shm_s) (c : Cursor) (fd : Int) (shm1 : shm_s) (c1 : Cursor),
      regen w inner fuel shm c = some (fd, shm1, c1) →
      (shm.fd_lifetime ≠ 0 ∧ shm.current_fd ≠ 0 ∧ fd = shm.current_fd ∧
          shm1 = { shm with fd_lifetime := shm.fd_lifetime - 1 } ∧ c1 = c) ∨
      ((shm.fd_lifetime = 0 ∨ shm.current_fd = 0) ∧
        ∃ m z, (∀ j, j < m → draw w c j ≤ 0) ∧ 0 < draw w c m ∧ fd = draw w c m ∧
          (shm1, c1) = regenerated w shm c m z) := by
  induction fuel with
  | zero => intro shm c fd shm1 c1 h; simp [regen] at h
  | succ fuel ih =>
    intro shm c fd shm1 c1 h
    by_cases hl : shm.fd_lifetime = 0
    · right
      refine ⟨Or.inl hl, ?_⟩
      cases hg : get_new_random_fd w inner c with
      | none => rw [regen_expired_none w inner fuel shm c hl hg] at h; cases h
      | some res =>
        obtain ⟨fd0, c0⟩ := res
        rw [regen_expired w inner fuel shm c c0 fd0 hl hg] at h
        obtain ⟨m0, hlt, hge, hr, hc⟩ := loop_sound w inner (-1) c fd0 c0 (by decide) hg
        subst hc
        by_cases hz : fd0 = 0
        · rw [if_pos hz] at h
          rcases ih _ _ fd shm1 c1 h with hcase | ⟨_, m, z, hle, hpos, hfd, hst⟩
          · exact absurd rfl hcase.1
          · rw [regenerated_shift] at hst
            refine ⟨m0 + 1 + m, z + 1, ?_, ?_, ?_, hst⟩
            · intro j hj
              by_cases hj0 : j < m0
              · exact le_of_lt (hlt j hj0)
              · by_cases hj1 : j = m0
                · subst hj1; omega
                · have := hle (j - (m0 + 1)) (by omega)
                  rw [draw_bump] at this
                  have e1 : m0 + 1 + (j - (m0 + 1)) = j := by omega
                  rw [e1] at this
                  exact this
            · rw [draw_bump] at hpos
              exact hpos
            · rw [hfd, draw_bump]
        · rw [if_neg hz] at h
          simp only [Option.some.injEq, Prod.mk.injEq] at h
          obtain ⟨h1, h2, h3⟩ := h
          refine ⟨m0, 0, fun j hj => le_of_lt (hlt j hj), by omega, by omega, ?_⟩
          rw [← regenerated_first, ← h2, ← h3, hr]
    · by_cases hf : shm.current_fd = 0
      · right
        refine ⟨Or.inr hf, ?_⟩
        rw [regen_zero_fd w inner fuel shm c hl hf] at h
        rcases ih _ _ fd shm1 c1 h with hcase | ⟨_, m, z, hle, hpos, hfd, hst⟩
        · exact absurd rfl hcase.1
        · exact ⟨m, z, hle, hpos, hfd, by rw [hst, regenerated_relabel]⟩
      · left
        rw [regen_reuse w inner fuel shm c hl hf] at h
        simp only [Option.some.injEq, Prod.mk.injEq] at h
        exact ⟨hl, hf, h.1.symm, h.2.1.symm, h.2.2.symm⟩

/-- With enough fuel a run of `regen` entered with lifetime 0 returns the first positive
draw, provided the draws before it are non-positive. -/
theorem regen_complete (w : World) (inner : Nat) (m : Nat) :
    ∀ (fuel : Nat) (shm : shm_s) (c : Cursor), shm.fd_lifetime = 0 →
      (∀ j, j < m → draw w c j ≤ 0) → 0 < draw w c m → m + 1 ≤ inner → m + 1 ≤ fuel →
      ∃ z, z ≤ m ∧ regen w inner fuel shm c = some (draw w c m, regenerated w shm c m z) := by
  induction m using Nat.strong_induction_on with
  | _ m ih =>
    intro fuel shm c hl hle hpos hinner hfuel
    obtain ⟨f, rfl⟩ : ∃ f, fuel = f + 1 := ⟨fuel - 1, by omega⟩
    obtain ⟨m0, hm0, hge, hlt, hg⟩ :=
      get_new_random_fd_returns w c m inner (le_of_lt hpos) hinner
    rw [regen_expired w inner f shm c _ _ hl hg]
    by_cases hmm : m0 = m
    · subst hmm
      have hz : draw w c m0 ≠ 0 := by omega
      rw [if_neg hz]
      exact ⟨0, Nat.zero_le _, by rw [regenerated_first]⟩
    · have hlt0 : m0 < m := by omega
      have hz : draw w c m0 = 0 := by have := hle m0 hlt0; omega
      rw [if_pos hz]
      have hsplit : m = m0 + 1 + (m - (m0 + 1)) := by omega
      obtain ⟨z, hzle, hres⟩ := ih (m - (m0 + 1)) (by omega) f
        { shm with current_fd := draw w c m0, fd_lifetime := 0 }
        { advance c (m0 + 1) with nrange := (advance c (m0 + 1)).nrange + 1 } rfl
        (by
          intro j hj
          rw [draw_bump]
          exact hle (m0 + 1 + j) (by omega))
        (by
          rw [draw_bump, ← hsplit]
          exact hpos)
        (by omega) (by omega)
      refine ⟨z + 1, by omega, ?_⟩
      rw [hres, regenerated_shift, ← hsplit, draw_bump, ← hsplit]

theorem get_random_fd_fresh (w : World) (fuel : Nat) (shm : shm_s) (c : Cursor)
    (h : w.rand c.nrand % 4 = 0) :
    get_random_fd w fuel shm c =
      match get_new_random_fd w fuel (after_selector c) with
      | none => none
      | some (fd, c1) => some (fd, shm, c1) := by
  simp [get_random_fd, h, after_selector]

theorem get_random_fd_reuse (w : World) (fuel : Nat) (shm : shm_s) (c : Cursor)
    (h : w.rand c.nrand % 4 ≠ 0) :
    get_random_fd w fuel shm c = regen w fuel fuel shm (after_selector c) := by
  simp [get_random_fd, h, after_selector]

/-- What a returning call of `get_random_fd` has done, branch by branch. -/
theorem get_random_fd_sound (w : World) (fuel : Nat) (shm : shm_s) (c : Cursor) (fd : Int)
    (shm1 : shm_s) (c1 : Cursor) (h : get_random_fd w fuel shm c = some (fd, shm1, c1)) :
    (w.rand c.nrand % 4 = 0 ∧ shm1 = shm ∧
        ∃ m, (∀ j, j < m → draw w (after_selector c) j < 0) ∧
          0 ≤ fd ∧ fd = draw w (after_selector c) m ∧ c1 = advance (after_selector c) (m + 1)) ∨
    (w.rand c.nrand % 4 ≠ 0 ∧ shm.fd_lifetime ≠ 0 ∧ shm.current_fd ≠ 0 ∧ fd = shm.current_fd ∧
        shm1 = { shm with fd_lifetime := shm.fd_lifetime - 1 } ∧ c1 = after_selector c) ∨
    (w.rand c.nrand % 4 ≠ 0 ∧ (shm.fd_lifetime = 0 ∨ shm.current_fd = 0) ∧
        ∃ m z, (∀ j, j < m → draw w (after_selector c) j ≤ 0) ∧
          0 < fd ∧ fd = draw w (after_selector c) m ∧
          (shm1, c1) = regenerated w shm (after_selector c) m z) := by
  by_cases hs : w.rand c.nrand % 4 = 0
  · left
    rw [get_random_fd_fresh w fuel shm c hs] at h
    cases hg : get_new_random_fd w fuel (after_selector c) with
    | none => rw [hg] at h; cases h
    | some res =>
      obtain ⟨fd0, c0⟩ := res
      rw [hg] at h
      simp only [Option.some.injEq, Prod.mk.injEq] at h
      obtain ⟨h1, h2, h3⟩ := h
      obtain ⟨m, hlt, hge, hr, hc⟩ := loop_sound w fuel (-1) _ fd0 c0 (by decide) hg
      subst h1 h2 h3
      exact ⟨hs, rfl, m, hlt, by omega, hr, hc⟩
  · right
    rw [get_random_fd_reuse w fuel shm c hs] at h
    rcases regen_sound w fuel fuel shm _ fd shm1 c1 h with
      ⟨a, b, e1, e2, e3⟩ | ⟨a, m, z, hle, hpos, hfd, hst⟩
    · exact Or.inl ⟨hs, a, b, e1, e2, e3⟩
    · exact Or.inr ⟨hs, a, m, z, hle, by omega, hfd, hst⟩

/-- A call of `get_random_fd` returns once a provider hands out a positive descriptor. -/
theorem get_random_fd_returns (w : World) (fuel : Nat) (shm : shm_s) (c : Cursor) (m : Nat)
    (hl : shm.fd_lifetime = 0) (hle : ∀ j, j < m → draw w (after_selector c) j ≤ 0)
    (hpos : 0 < draw w (after_selector c) m) (hfuel : m + 1 ≤ fuel) :
    ∃ r, get_random_fd w fuel shm c = some r := by
  by_cases hs : w.rand c.nrand % 4 = 0
  · obtain ⟨m0, _, _, _, hg⟩ :=
      get_new_random_fd_returns w (after_selector c) m fuel (le_of_lt hpos) hfuel
    rw [get_random_fd_fresh w fuel shm c hs, hg]
    exact ⟨_, rfl⟩
  · obtain ⟨z, _, hr⟩ :=
      regen_complete w fuel m fuel shm (after_selector c) hl hle hpos hfuel hfuel
    rw [get_random_fd_reuse w fuel shm c hs, hr]
    exact ⟨_, rfl⟩

/-- Reuse-branch calls on a live positive descriptor return it until the lifetime is used up. -/
theorem reuse_calls (w : World) (fuel : Nat) (n : Nat) :
    ∀ (shm : shm_s) (c : Cursor), shm.fd_lifetime = n → 0 < shm.current_fd →
      (∀ k, k < n → w.rand (c.nrand + k) % 4 ≠ 0) →
      get_random_fd_calls w (fuel + 1) n shm c =
        some (List.replicate n shm.current_fd, { shm with fd_lifetime := 0 },
              { c with nrand := c.nrand + n }) := by
  induction n with
  | zero =>
    intro shm c hl _ _
    obtain ⟨a1, a2, a3, a4, a5, a6, a7, a8, a9, a10, a11⟩ := shm
    change a10 = 0 at hl
    subst hl
    simp [get_random_fd_calls]
  | succ n ih =>
    intro shm c hl hf hsel
    have h0 : w.rand c.nrand % 4 ≠ 0 := by simpa using hsel 0 (by omega)
    have hstep : get_random_fd w (fuel + 1) shm c =
        some (shm.current_fd, { shm with fd_lifetime := shm.fd_lifetime - 1 },
          after_selector c) := by
      rw [get_random_fd_reuse w (fuel + 1) shm c h0]
      exact regen_reuse w (fuel + 1) fuel shm _ (by omega) (by omega)
    have hrest := ih { shm with fd_lifetime := shm.fd_lifetime - 1 } (after_selector c)
      (by simp only; omega) hf
      (by
        intro k hk
        have := hsel (k + 1) (by omega)
        simpa [after_selector, Nat.add_assoc, Nat.add_comm 1 k] using this)
    simp only [get_random_fd_calls, hstep, hrest, List.replicate_succ]
    simp [after_selector, Nat.add_assoc, Nat.add_comm 1 n]

/-- C1, the code at a failing input: on the fresh branch (first draw 0, so `rand() % 4 == 0`)
with a provider that hands out descriptor 0, `get_random_fd` returns 0 from the freshly
mapped control block, whatever fuel it is given. -/
theorem fresh_branch_returns_zero (fuel : Nat) :
    get_random_fd world_zero (fuel + 1) shm_zeroed cursor_start =
      some (0, shm_zeroed, { nrand := 2, nget := 1, nrange := 0 }) := by
  have hs : world_zero.rand cursor_start.nrand % 4 = 0 := by decide
  have hg : get_new_random_fd world_zero (fuel + 1) (after_selector cursor_start) =
      some (draw world_zero (after_selector cursor_start) 0,
        advance (after_selector cursor_start) (0 + 1)) :=
    loop_complete world_zero 0 (fuel + 1) (-1) _ (by decide) (fun j hj => absurd hj (by omega))
      (by decide) (by omega)
  rw [get_random_fd_fresh _ _ _ _ hs, hg]
  rfl

/-- C2: the predicate "fd_lifetime > 0 implies current_fd > 0" holds in the control block
`create_shm` produces, and is preserved by every returning call of `get_random_fd` (fresh
or reuse branch, whatever `rand()`, `rand_range` and the providers return) and by every
run of the signal handler. -/
theorem fd_state_ok_invariant :
    (∀ (inp : shm_inputs) (r : Int) (shm : shm_s),
      create_shm inp = Outcome.ret (r, some shm) →
        fd_state_ok shm ∧ shm.current_fd = 0 ∧ shm.fd_lifetime = 0) ∧
    (∀ (w : World) (fuel : Nat) (shm : shm_s) (c : Cursor) (fd : Int) (shm1 : shm_s)
      (c1 : Cursor), fd_state_ok shm → get_random_fd w fuel shm c = some (fd, shm1, c1) →
        fd_state_ok shm1) ∧
    (∀ (catchable : Nat → Bool) (sig : Nat) (p : Proc),
      fd_state_ok p.shm → fd_state_ok (sighandler catchable sig p).1.shm) := by
  refine ⟨?_, ?_, ?_⟩
  · intro inp r shm h
    have key : shm.current_fd = 0 ∧ shm.fd_lifetime = 0 := by
      by_cases hm : inp.mmap_ok = false
      · simp [create_shm, hm] at h
      · by_cases hu : inp.user_specified_children = 0
        · simp only [create_shm, hm, hu, if_false, ne_eq, not_true_eq_false] at h
          split at h
          · contradiction
          · split at h
            · cases h
            · simp only [Outcome.ret.injEq, Prod.mk.injEq, Option.some.injEq] at h
              obtain ⟨_, h⟩ := h
              subst h
              simp [shm_zeroed]
        · simp only [create_shm, hm, hu, if_false, ne_eq, not_false_eq_true, if_true] at h
          split at h
          · contradiction
          · split at h
            · cases h
            · simp only [Outcome.ret.injEq, Prod.mk.injEq, Option.some.injEq] at h
              obtain ⟨_, h⟩ := h
              subst h
              simp [shm_zeroed]
    refine ⟨?_, key.1, key.2⟩
    intro hpos
    omega
  · intro w fuel shm c fd shm1 c1 hok h
    rcases get_random_fd_sound w fuel shm c fd shm1 c1 h with
      ⟨_, e, _⟩ | ⟨_, hl, hf, _, e, _⟩ | ⟨_, _, m, z, _, hpos, hfd, hst⟩
    · rw [e]; exact hok
    · rw [e]
      intro _
      exact hok (by omega)
    · have e : shm1 = (regenerated w shm (after_selector c) m z).1 := by rw [← hst]
      rw [e]
      intro _
      simp only [regenerated]
      omega
  · intro catchable sig p hok
    unfold sighandler
    by_cases ha : sig = SIGALRM
    · simp [ha, fd_state_ok]
    · by_cases hi : sig = SIGINT
      · simp only [ha, hi, if_false, if_true]
        exact hok
      · simp only [ha, hi, if_false]
        exact hok

/-- C2 at a reuse-branch call that meets descriptor 0 first: the draw of 0 is discarded, the
call regenerates again and ends with descriptor 9 and lifetime 5. -/
theorem fd_state_ok_invariant_witness :
    fd_state_ok shm_seven ∧
    get_random_fd world_late 3 shm_seven cursor_start =
      some (9, { shm_seven with current_fd := 9, fd_lifetime := 5 },
        { nrand := 3, nget := 2, nrange := 2 }) ∧
    fd_state_ok { shm_seven with current_fd := 9, fd_lifetime := 5 } := by
  have h1 : fd_state_ok shm_seven := by decide
  have h2 : get_random_fd world_late 3 shm_seven cursor_start =
      some (9, { shm_seven with current_fd := 9, fd_lifetime := 5 },
        { nrand := 3, nget := 2, nrange := 2 }) := by decide
  exact ⟨h1, h2, fd_state_ok_invariant.2.1 world_late 3 shm_seven cursor_start 9 _ _ h1 h2⟩

/-- C3, counterexample: called with `fd_lifetime == 0` on the fresh branch, `get_random_fd`
returns the drawn descriptor 9 but leaves `current_fd = 7` and `fd_lifetime = 0` as they
were: nothing is regenerated. -/
theorem fresh_branch_does_not_regenerate :
    shm_seven.fd_lifetime = 0 ∧ shm_seven.current_fd = 7 ∧
    get_random_fd world_nine 2 shm_seven cursor_start =
      some (9, shm_seven, { nrand := 2, nget := 1, nrange := 0 }) := by
  decide

/-- C3, amended: called with `fd_lifetime == 0` on the reuse branch (first draw mod 4 != 0),
`get_random_fd` regenerates: it returns the first positive provider draw, stores it in
`current_fd` and sets `fd_lifetime` to a result of rand_range(5, max_children); on the
fresh branch it returns the first non-negative provider draw (it does return, given fuel
for the draws up to that one) and leaves `current_fd` and `fd_lifetime` as they were. Called with current_fd = f > 0 and fd_lifetime = L > 0 on the reuse branch it returns
f, keeps current_fd and sets fd_lifetime to L - 1. Hence from (f, L) the next L reuse-branch
calls all return f, consult no provider and end with fd_lifetime == 0, and the reuse-branch
call after them regenerates. -/
theorem reuse_lifetime_protocol (w : World) (shm : shm_s) (c : Cursor) :
    (∀ (m fuel : Nat), w.rand c.nrand % 4 ≠ 0 → shm.fd_lifetime = 0 →
      (∀ j, j < m → draw w (after_selector c) j ≤ 0) → 0 < draw w (after_selector c) m →
      m + 1 ≤ fuel →
      ∃ z, z ≤ m ∧ get_random_fd w fuel shm c =
        some (draw w (after_selector c) m, regenerated w shm (after_selector c) m z)) ∧
    (∀ (fuel : Nat) (fd : Int) (shm1 : shm_s) (c1 : Cursor), w.rand c.nrand % 4 = 0 →
      get_random_fd w fuel shm c = some (fd, shm1, c1) →
      shm1 = shm ∧ ∃ m, fd = draw w (after_selector c) m ∧
        c1 = advance (after_selector c) (m + 1)) ∧
    (∀ (m fuel : Nat), w.rand c.nrand % 4 = 0 →
      (∀ j, j < m → draw w (after_selector c) j < 0) → 0 ≤ draw w (after_selector c) m →
      m + 1 ≤ fuel →
      get_random_fd w fuel shm c =
        some (draw w (after_selector c) m, shm, advance (after_selector c) (m + 1))) ∧
    (∀ (fuel : Nat), w.rand c.nrand % 4 ≠ 0 → 0 < shm.current_fd → 0 < shm.fd_lifetime →
      get_random_fd w (fuel + 1) shm c =
        some (shm.current_fd, { shm with fd_lifetime := shm.fd_lifetime - 1 },
          after_selector c)) ∧
    (∀ (fuel : Nat), 0 < shm.current_fd →
      (∀ k, k < shm.fd_lifetime → w.rand (c.nrand + k) % 4 ≠ 0) →
      get_random_fd_calls w (fuel + 1) shm.fd_lifetime shm c =
        some (List.replicate shm.fd_lifetime shm.current_fd, { shm with fd_lifetime := 0 },
          { c with nrand := c.nrand + shm.fd_lifetime })) ∧
    (∀ (m fuel : Nat), w.rand (c.nrand + shm.fd_lifetime) % 4 ≠ 0 →
      (∀ j, j < m →
        draw w (after_selector { c with nrand := c.nrand + shm.fd_lifetime }) j ≤ 0) →
      0 < draw w (after_selector { c with nrand := c.nrand + shm.fd_lifetime }) m →
      m + 1 ≤ fuel →
      ∃ z, z ≤ m ∧
        get_random_fd w fuel { shm with fd_lifetime := 0 }
            { c with nrand := c.nrand + shm.fd_lifetime } =
          some (draw w (after_selector { c with nrand := c.nrand + shm.fd_lifetime }) m,
            regenerated w shm (after_selector { c with nrand := c.nrand + shm.fd_lifetime })
              m z)) := by
  refine ⟨?_, ?_, ?_, ?_, ?_, ?_⟩
  · intro m fuel hs hl hle hpos hfuel
    rw [get_random_fd_reuse w fuel shm c hs]
    exact regen_complete w fuel m fuel shm (after_selector c) hl hle hpos hfuel hfuel
  · intro fuel fd shm1 c1 hs h
    rcases get_random_fd_sound w fuel shm c fd shm1 c1 h with
      ⟨_, e, m, _, _, hfd, hc⟩ | ⟨hn, _⟩ | ⟨hn, _⟩
    · exact ⟨e, m, hfd, hc⟩
    · exact absurd hs hn
    · exact absurd hs hn
  · intro m fuel hs hlt hge hfuel
    have hg : get_new_random_fd w fuel (after_selector c) =
        some (draw w (after_selector c) m, advance (after_selector c) (m + 1)) :=
      loop_complete w m fuel (-1) (after_selector c) (by decide) hlt hge hfuel
    rw [get_random_fd_fresh w fuel shm c hs, hg]
  · intro fuel hs hf hl
    rw [get_random_fd_reuse w (fuel + 1) shm c hs]
    exact regen_reuse w (fuel + 1) fuel shm _ (by omega) (by omega)
  · intro fuel hf hsel
    exact reuse_calls w fuel shm.fd_lifetime shm c rfl hf hsel
  · intro m fuel hs hle hpos hfuel
    rw [get_random_fd_reuse w fuel _ _ hs]
    exact regen_complete w fuel m fuel { shm with fd_lifetime := 0 } _ rfl hle hpos
      hfuel hfuel

/-- C3, amended, at descriptor 7 with two calls of lifetime left: two reuse-branch calls
return 7, 7 and leave lifetime 0 without a provider call; and a fresh-branch call on the
same control block returns the drawn descriptor 9 and leaves the block as it was. -/
theorem reuse_lifetime_protocol_witness :
    ((0 < shm_seven_live.current_fd ∧
      ∀ k, k < shm_seven_live.fd_lifetime → world_late.rand (cursor_start.nrand + k) % 4 ≠ 0) ∧
    get_random_fd_calls world_late 1 2 shm_seven_live cursor_start =
      some ([7, 7], shm_seven, { nrand := 2, nget := 0, nrange := 0 })) ∧
    ((world_nine.rand cursor_start.nrand % 4 = 0 ∧
      (∀ j, j < 0 → draw world_nine (after_selector cursor_start) j < 0) ∧
      0 ≤ draw world_nine (after_selector cursor_start) 0 ∧ 0 + 1 ≤ 1) ∧
    get_random_fd world_nine 1 shm_seven_live cursor_start =
      some (9, shm_seven_live, { nrand := 2, nget := 1, nrange := 0 })) :=
  ⟨⟨⟨by decide, fun k _ => by simp [world_late]⟩,
    (reuse_lifetime_protocol world_late shm_seven_live cursor_start).2.2.2.2.1 0 (by decide)
      (fun k _ => by simp [world_late])⟩,
   ⟨⟨by decide, fun j hj => absurd hj (Nat.not_lt_zero j), by decide, by decide⟩,
    (reuse_lifetime_protocol world_nine shm_seven_live cursor_start).2.2.1 0 1 (by decide)
      (fun j hj => absurd hj (Nat.not_lt_zero j)) (by decide) (by decide)⟩⟩

/-- C4: handling SIGALRM sets `fd_lifetime` to 0 and changes no other field of the control
block before the long jump; the next `get_random_fd` call, if it returns, returns a
descriptor a provider handed out during that call (and on the reuse branch stores it in
`current_fd` first), and it does return once a provider hands out a positive descriptor. -/
theorem alarm_drops_reused_fd (catchable : Nat → Bool) (p : Proc) :
    (sighandler catchable SIGALRM p).1.shm = { p.shm with fd_lifetime := 0 } ∧
    (sighandler catchable SIGALRM p).2 = Control.longjmp 1 ∧
    (∀ (w : World) (fuel : Nat) (c : Cursor) (fd : Int) (shm1 : shm_s) (c1 : Cursor),
      get_random_fd w fuel (sighandler catchable SIGALRM p).1.shm c = some (fd, shm1, c1) →
      ∃ m, fd = w.get (w.rand (c.nrand + 1 + m) % NR_FD_PROVIDERS) (c.nget + m) ∧
        c.nget + m < c1.nget ∧ 0 ≤ fd ∧
        (w.rand c.nrand % 4 ≠ 0 → shm1.current_fd = fd ∧ 0 < fd)) ∧
    (∀ (w : World) (fuel : Nat) (c : Cursor) (m : Nat),
      (∀ j, j < m → w.get (w.rand (c.nrand + 1 + j) % NR_FD_PROVIDERS) (c.nget + j) ≤ 0) →
      0 < w.get (w.rand (c.nrand + 1 + m) % NR_FD_PROVIDERS) (c.nget + m) → m + 1 ≤ fuel →
      ∃ r, get_random_fd w fuel (sighandler catchable SIGALRM p).1.shm c = some r) := by
  rw [sighandler_sigalrm]
  refine ⟨rfl, rfl, ?_, ?_⟩
  · intro w fuel c fd shm1 c1 h
    rcases get_random_fd_sound w fuel _ c fd shm1 c1 h with
      ⟨hs, _, m, _, hge, hfd, hc⟩ | ⟨_, hl, _⟩ | ⟨_, _, m, z, _, hpos, hfd, hst⟩
    · refine ⟨m, hfd, ?_, hge, fun hn => absurd hs hn⟩
      rw [hc]
      simp [advance, after_selector]
    · exact absurd rfl hl
    · have e1 : shm1 = (regenerated w { p.shm with fd_lifetime := 0 } (after_selector c) m z).1 := by
        rw [← hst]
      have e2 : c1 = (regenerated w { p.shm with fd_lifetime := 0 } (after_selector c) m z).2 := by
        rw [← hst]
      refine ⟨m, hfd, ?_, le_of_lt hpos, fun _ => ⟨?_, hpos⟩⟩
      · rw [e2]
        simp [regenerated, after_selector]
      · rw [e1, hfd]
        rfl
  · intro w fuel c m hle hpos hfuel
    exact get_random_fd_returns w fuel _ c m rfl hle hpos hfuel

/-- C4 at a process holding descriptor 7 with two calls of lifetime left: after SIGALRM the
next reuse-branch call does not return 7 but draws, discards descriptor 0 and returns 9. -/
theorem alarm_drops_reused_fd_witness :
    (sighandler linux_catchable SIGALRM
        { shm := shm_seven_live, disp := fun _ => sighandler_t.handler }).1.shm = shm_seven ∧
    get_random_fd world_late 3 shm_seven cursor_start =
      some (9, { shm_seven with current_fd := 9, fd_lifetime := 5 },
        { nrand := 3, nget := 2, nrange := 2 }) ∧
    ∃ m, (9 : Int) = world_late.get (world_late.rand (cursor_start.nrand + 1 + m) %
        NR_FD_PROVIDERS) (cursor_start.nget + m) ∧ cursor_start.nget + m < 2 := by
  have h2 : get_random_fd world_late 3 shm_seven cursor_start =
      some (9, { shm_seven with current_fd := 9, fd_lifetime := 5 },
        { nrand := 3, nget := 2, nrange := 2 }) := by decide
  have h := alarm_drops_reused_fd linux_catchable
    { shm := shm_seven_live, disp := fun _ => sighandler_t.handler }
  obtain ⟨m, hm, hlt, _⟩ := h.2.2.1 world_late 3 cursor_start 9 _ _ h2
  exact ⟨h.1, h2, m, hm, hlt⟩

/-! ## Theorems: log stripping -/

theorem strlen_append (xs tail : List Nat) (h : ∀ b ∈ xs, b ≠ 0) :
    strlen (xs ++ 0 :: tail) = some xs.length := by
  induction xs with
  | nil => simp [strlen]
  | cons x xs ih =>
    have hx : x ≠ 0 := h x (List.mem_cons_self _ _)
    have := ih (fun b hb => h b (List.mem_cons_of_mem _ hb))
    simp [strlen, hx, this]

theorem getElem?_after (pre rest : List Nat) (j : Nat) :
    (pre ++ rest)[pre.length + j]? = rest[j]? := by
  rw [List.getElem?_append_right (by omega)]
  congr 1
  omega

/-- One iteration of the loop on a byte that is not ESC: the byte is copied and both
offsets move on by one. -/
theorem strip_step_text (len buflen fuel i to_off : Nat) (orig acc buf : List Nat) (ch : Nat)
    (hinv : strip_inv orig i to_off acc buf) (hch : orig[i]? = some ch) (hne : ch ≠ ESC)
    (hi : i < len) (hb : i + 2 < buflen) (hu : buflen < UINT_MOD) :
    strip_ansi_loop len buflen (fuel + 1) i to_off buf =
      strip_ansi_loop len buflen fuel (i + 1) (to_off + 1) (buf.set to_off ch) ∧
    strip_inv orig (i + 1) (to_off + 1) (acc ++ [ch]) (buf.set to_off ch) := by
  obtain ⟨hlen, hto, hacc, hpre, hsuf⟩ := hinv
  have hilt : i < orig.length := by
    rcases List.getElem?_eq_some.mp hch with ⟨h, _⟩
    exact h
  have hbi : buf[i]? = some ch := by rw [hsuf i (le_refl i)]; exact hch
  have htlt : to_off < buf.length := by omega
  have hb1 : (buf.set to_off ch)[i]? = some ch := by
    rw [List.getElem?_set]
    by_cases e : to_off = i
    · subst e; simp [htlt]
    · simp [e, hbi]
  have hm2 : (i + 2) % UINT_MOD = i + 2 := Nat.mod_eq_of_lt (by omega)
  have hm1 : (i + 1) % UINT_MOD = i + 1 := Nat.mod_eq_of_lt (by omega)
  constructor
  · rw [strip_ansi_loop, hm2, if_pos ⟨hi, hb⟩]
    simp only [hbi]
    rw [if_pos htlt]
    simp only [hb1]
    rw [if_neg hne, hm1]
  · refine ⟨by simp [hlen], by omega, by simp [hacc], ?_, ?_⟩
    · intro k hk
      by_cases e : k = to_off
      · subst e
        rw [List.getElem?_set]
        simp only [if_true, htlt]
        rw [← hacc, List.getElem?_append_right (le_refl _)]
        simp
      · have hk2 : k < to_off := by omega
        rw [List.getElem?_set_ne (Ne.symm e), hpre k hk2,
          List.getElem?_append_left (by omega)]
    · intro k hk
      rw [List.getElem?_set_ne (by omega), hsuf k (by omega)]

/-- One iteration of the loop on an ESC: nothing is kept, and the index skips 7 bytes when
the byte two places on is the digit 1 and 4 bytes otherwise. -/
theorem strip_step_code (len buflen fuel i to_off : Nat) (orig acc buf : List Nat) (d : Nat)
    (hinv : strip_inv orig i to_off acc buf) (hch : orig[i]? = some ESC)
    (hd : orig[i + 2]? = some d) (hi : i < len) (hb : i + 2 < buflen) (hlb : len + 2 ≤ buflen)
    (hu : buflen < UINT_MOD) (hfit : i + (if d = 0x31 then 7 else 4) ≤ len) :
    strip_ansi_loop len buflen (fuel + 1) i to_off buf =
      strip_ansi_loop len buflen fuel (i + (if d = 0x31 then 7 else 4)) to_off
        (buf.set to_off ESC) ∧
    strip_inv orig (i + (if d = 0x31 then 7 else 4)) to_off acc (buf.set to_off ESC) := by
  obtain ⟨hlen, hto, hacc, hpre, hsuf⟩ := hinv
  have hilt : i < orig.length := by
    rcases List.getElem?_eq_some.mp hch with ⟨h, _⟩
    exact h
  have hbi : buf[i]? = some ESC := by rw [hsuf i (le_refl i)]; exact hch
  have htlt : to_off < buf.length := by omega
  have hb1 : (buf.set to_off ESC)[i]? = some ESC := by
    rw [List.getElem?_set]
    by_cases e : to_off = i
    · subst e; simp [htlt]
    · simp [e, hbi]
  have hb2 : (buf.set to_off ESC)[i + 2]? = some d := by
    rw [List.getElem?_set_ne (by omega), hsuf (i + 2) (by omega)]
    exact hd
  have hm2 : (i + 2) % UINT_MOD = i + 2 := Nat.mod_eq_of_lt (by omega)
  have hL : 4 ≤ (if d = 0x31 then 7 else 4) := by split <;> omega
  constructor
  · rw [strip_ansi_loop, hm2, if_pos ⟨hi, hb⟩]
    simp only [hbi]
    rw [if_pos htlt]
    simp only [hb1, hb2]
    rw [if_pos trivial]
    by_cases e : d = 0x31
    · simp only [e, if_true] at hfit ⊢
      have h6 : (i + 6) % UINT_MOD = i + 6 := Nat.mod_eq_of_lt (by omega)
      have h7 : (i + 6 + 1) % UINT_MOD = i + 7 := Nat.mod_eq_of_lt (by omega)
      rw [h6, h7]
    · simp only [e, if_false] at hfit ⊢
      have h3 : (i + 3) % UINT_MOD = i + 3 := Nat.mod_eq_of_lt (by omega)
      have h4 : (i + 3 + 1) % UINT_MOD = i + 4 := Nat.mod_eq_of_lt (by omega)
      rw [h3, h4]
  · refine ⟨by simp [hlen], ?_, hacc, ?_, ?_⟩
    · omega
    · intro k hk
      rw [List.getElem?_set_ne (by omega), hpre k hk]
    · intro k hk
      rw [List.getElem?_set_ne (by omega), hsuf k (by omega)]

theorem ansi_code_shape (c : List Nat) (h : c ∈ ansi_codes) :
    ∃ x d rest, c = ESC :: x :: d :: rest ∧ c.length = (if d = 0x31 then 7 else 4) ∧
      ∀ b ∈ c, b ≠ 0 := by
  simp only [ansi_codes, List.mem_cons, List.mem_singleton, List.not_mem_nil, or_false] at h
  rcases h with rfl | rfl | rfl | rfl | rfl | rfl | rfl | rfl <;>
    exact ⟨_, _, _, rfl, by decide, by decide⟩

theorem strip_goal_nil (orig tail : List Nat) (len buflen : Nat) :
    strip_goal orig tail len buflen [] [] := by
  intro pre acc buf to_off fuel _ hl hinv _
  have hn : ¬ (pre.length < len ∧ (pre.length + 2) % UINT_MOD < buflen) := by
    simp only [List.length_nil, Nat.add_zero] at hl
    omega
  refine ⟨to_off, buf, ?_, ?_⟩
  · cases fuel <;> rw [strip_ansi_loop, if_neg hn]
  · have : len = pre.length := by simpa using hl
    rw [this, List.append_nil]
    exact hinv

theorem strip_goal_text (orig tail : List Nat) (len buflen : Nat) (hlb : len + 2 ≤ buflen)
    (hu : buflen < UINT_MOD) (ch : Nat) (rest txt : List Nat) (hne : ch ≠ ESC)
    (h : strip_goal orig tail len buflen rest txt) :
    strip_goal orig tail len buflen (ch :: rest) (ch :: txt) := by
  intro pre acc buf to_off fuel horig hl hinv hfuel
  simp only [List.length_cons] at hl hfuel
  obtain ⟨f, rfl⟩ : ∃ f, fuel = f + 1 := ⟨fuel - 1, by omega⟩
  have hch : orig[pre.length]? = some ch := by
    have := getElem?_after pre (ch :: rest ++ 0 :: tail) 0
    rw [horig]
    simpa using this
  obtain ⟨hstep, hinv1⟩ := strip_step_text len buflen f pre.length to_off orig acc buf ch hinv
    hch hne (by omega) (by omega) hu
  rw [hstep]
  have := h (pre ++ [ch]) (acc ++ [ch]) (buf.set to_off ch) (to_off + 1) f
    (by rw [horig]; simp) (by simp; omega) (by simpa using hinv1) (by omega)
  simpa using this

theorem strip_goal_code (orig tail : List Nat) (len buflen : Nat) (hlb : len + 2 ≤ buflen)
    (hu : buflen < UINT_MOD) (c rest txt : List Nat) (hc : c ∈ ansi_codes)
    (h : strip_goal orig tail len buflen rest txt) :
    strip_goal orig tail len buflen (c ++ rest) txt := by
  intro pre acc buf to_off fuel horig hl hinv hfuel
  obtain ⟨x, d, more, hshape, hclen, _⟩ := ansi_code_shape c hc
  simp only [List.length_append] at hl hfuel
  have hL : 4 ≤ c.length := by rw [hclen]; split <;> omega
  obtain ⟨f, rfl⟩ : ∃ f, fuel = f + 1 := ⟨fuel - 1, by omega⟩
  have hch : orig[pre.length]? = some ESC := by
    have := getElem?_after pre (c ++ rest ++ 0 :: tail) 0
    rw [horig]
    rw [hshape] at this ⊢
    simpa using this
  have hd : orig[pre.length + 2]? = some d := by
    have := getElem?_after pre (c ++ rest ++ 0 :: tail) 2
    rw [horig]
    rw [hshape] at this ⊢
    simpa using this
  obtain ⟨hstep, hinv1⟩ := strip_step_code len buflen f pre.length to_off orig acc buf d hinv
    hch hd (by omega) (by omega) hlb hu (by rw [← hclen]; omega)
  rw [hstep, ← hclen]
  rw [← hclen] at hinv1
  have := h (pre ++ c) acc (buf.set to_off ESC) to_off f
    (by rw [horig]; simp) (by simp; omega) (by simpa using hinv1) (by omega)
  simpa using this

/-- The loop of `strip_ansi` handles every well-formed sequence of pieces. -/
theorem strip_goal_pieces (orig tail : List Nat) (len buflen : Nat) (hlb : len + 2 ≤ buflen)
    (hu : buflen < UINT_MOD) (ps : List Piece) (hwf : ∀ p ∈ ps, p.wf) :
    strip_goal orig tail len buflen (render ps) (plain ps) := by
  induction ps with
  | nil => exact strip_goal_nil orig tail len buflen
  | cons p ps ih =>
    have ih1 := ih (fun q hq => hwf q (List.mem_cons_of_mem _ hq))
    have hp := hwf p (List.mem_cons_self _ _)
    cases p with
    | text s =>
      simp only [render, plain]
      simp only [Piece.wf] at hp
      have key : ∀ t : List Nat, (∀ b ∈ t, b ≠ 0 ∧ b ≠ ESC) →
          strip_goal orig tail len buflen (t ++ render ps) (t ++ plain ps) := by
        intro t
        induction t with
        | nil => intro _; simpa using ih1
        | cons ch t iht =>
          intro ht
          have := iht (fun b hb => ht b (List.mem_cons_of_mem _ hb))
          exact strip_goal_text orig tail len buflen hlb hu ch _ _
            (ht ch (List.mem_cons_self _ _)).2 this
      exact key s hp
    | code c =>
      simp only [render, plain]
      exact strip_goal_code orig tail len buflen hlb hu c _ _ hp ih1

theorem render_ne_zero (ps : List Piece) (hwf : ∀ p ∈ ps, p.wf) : ∀ b ∈ render ps, b ≠ 0 := by
  induction ps with
  | nil => intro b hb; simp [render] at hb
  | cons p ps ih =>
    have ih1 := ih (fun q hq => hwf q (List.mem_cons_of_mem _ hq))
    have hp := hwf p (List.mem_cons_self _ _)
    intro b hb
    cases p with
    | text s =>
      simp only [render, List.mem_append] at hb
      rcases hb with hb | hb
      · exact (hp b hb).1
      · exact ih1 b hb
    | code c =>
      simp only [render, List.mem_append] at hb
      rcases hb with hb | hb
      · obtain ⟨_, _, _, _, _, hz⟩ := ansi_code_shape c hp
        exact hz b hb
      · exact ih1 b hb

theorem plain_ne_zero (ps : List Piece) (hwf : ∀ p ∈ ps, p.wf) : ∀ b ∈ plain ps, b ≠ 0 := by
  induction ps with
  | nil => intro b hb; simp [plain] at hb
  | cons p ps ih =>
    have ih1 := ih (fun q hq => hwf q (List.mem_cons_of_mem _ hq))
    have hp := hwf p (List.mem_cons_self _ _)
    intro b hb
    cases p with
    | text s =>
      simp only [plain, List.mem_append] at hb
      rcases hb with hb | hb
      · exact (hp b hb).1
      · exact ih1 b hb
    | code c =>
      simp only [plain] at hb
      exact ih1 b hb

theorem plain_length_le (ps : List Piece) : (plain ps).length ≤ (render ps).length := by
  induction ps with
  | nil => simp [plain, render]
  | cons p ps ih =>
    cases p with
    | text s => simp only [plain, render, List.length_append]; omega
    | code c => simp only [plain, render, List.length_append]; omega

theorem plain_eq_render (ps : List Piece) (h : ∀ p ∈ ps, ∃ s, p = Piece.text s) :
    plain ps = render ps := by
  induction ps with
  | nil => simp [plain, render]
  | cons p ps ih =>
    have ih1 := ih (fun q hq => h q (List.mem_cons_of_mem _ hq))
    obtain ⟨s, rfl⟩ := h p (List.mem_cons_self _ _)
    simp only [plain, render, ih1]

/-- A buffer that starts with the non-NUL bytes `acc` followed by a NUL holds the string `acc`. -/
theorem cstring_of_copied (acc : List Nat) :
    ∀ out : List Nat, (∀ k, k < acc.length → out[k]? = acc[k]?) → out[acc.length]? = some 0 →
      (∀ b ∈ acc, b ≠ 0) → cstring out = acc := by
  induction acc with
  | nil =>
    intro out _ h0 _
    cases out with
    | nil => simp at h0
    | cons x out =>
      simp only [List.length_nil, List.getElem?_cons_zero, Option.some.injEq] at h0
      simp [cstring, h0]
  | cons a acc ih =>
    intro out hpre h0 hnz
    cases out with
    | nil => simp at h0
    | cons x out =>
      have hx : x = a := by
        have := hpre 0 (by simp)
        simpa using this
      subst hx
      have hxz : x ≠ 0 := hnz x (List.mem_cons_self _ _)
      have := ih out
        (by
          intro k hk
          have := hpre (k + 1) (by simp; omega)
          simpa using this)
        (by simpa using h0)
        (fun b hb => hnz b (List.mem_cons_of_mem _ hb))
      simp only [cstring] at this ⊢
      rw [List.takeWhile_cons_of_pos (by simpa using hxz), this]

/-- C9: with monochrome off, for a NUL-terminated buffer of `buflen` bytes whose string is a
concatenation of ESC-free text pieces and the eight ANSI codes, of length len with
len + 2 <= buflen, `strip_ansi` runs without touching a byte outside the buffer and leaves
the buffer holding the concatenation of the text pieces, NUL-terminated, which is never
longer than the input; an ESC-free string leaves the buffer unchanged; with monochrome on
the buffer is unchanged. -/
theorem strip_ansi_removes_codes (pieces : List Piece) (tail : List Nat) (buflen : Nat)
    (hwf : ∀ p ∈ pieces, p.wf) (hlen : (render pieces ++ 0 :: tail).length = buflen)
    (hroom : (render pieces).length + 2 ≤ buflen) (hu : buflen < UINT_MOD) :
    (∃ out, strip_ansi false (render pieces ++ 0 :: tail) buflen = some out ∧
      out.length = buflen ∧ cstring out = plain pieces ∧
      ((∀ p ∈ pieces, ∃ s, p = Piece.text s) → out = render pieces ++ 0 :: tail)) ∧
    (plain pieces).length ≤ (render pieces).length ∧
    strip_ansi true (render pieces ++ 0 :: tail) buflen = some (render pieces ++ 0 :: tail) := by
  refine ⟨?_, plain_length_le pieces, by simp [strip_ansi]⟩
  have hstr := strlen_append (render pieces) tail (render_ne_zero pieces hwf)
  have hmod : (render pieces).length % UINT_MOD = (render pieces).length :=
    Nat.mod_eq_of_lt (by omega)
  have hinv0 : strip_inv (render pieces ++ 0 :: tail) ([] : List Nat).length 0 []
      (render pieces ++ 0 :: tail) :=
    ⟨rfl, le_refl _, rfl, fun k hk => absurd hk (Nat.not_lt_zero k), fun _ _ => rfl⟩
  obtain ⟨to1, buf1, hloop, hl1, hto1, hacc1, hpre1, hsuf1⟩ :=
    strip_goal_pieces (render pieces ++ 0 :: tail) tail (render pieces).length buflen hroom hu
      pieces hwf [] [] (render pieces ++ 0 :: tail) 0 (render pieces).length rfl
      (by simp) hinv0 (le_refl _)
  simp only [List.length_nil, List.nil_append] at hloop hacc1 hpre1
  have htl : to1 < buf1.length := by rw [hl1, hlen]; omega
  have hsa : strip_ansi false (render pieces ++ 0 :: tail) buflen = some (buf1.set to1 0) := by
    simp only [strip_ansi, Bool.false_eq_true, if_false, hstr, hmod, hloop, htl, if_true]
  refine ⟨buf1.set to1 0, hsa, by simp [hl1, hlen], ?_, ?_⟩
  · apply cstring_of_copied
    · intro k hk
      rw [hacc1] at hk
      rw [List.getElem?_set_ne (by omega), hpre1 k hk]
    · rw [hacc1, List.getElem?_set]
      simp [htl]
    · exact plain_ne_zero pieces hwf
  · intro htext
    have hpr := plain_eq_render pieces htext
    rw [hpr] at hacc1 hpre1
    apply List.ext_getElem?
    intro k
    by_cases hk : k < to1
    · rw [List.getElem?_set_ne (by omega), hpre1 k hk, List.getElem?_append_left (by omega)]
    · by_cases hk2 : k = to1
      · subst hk2
        rw [List.getElem?_set]
        simp only [if_true, htl]
        rw [← hacc1, List.getElem?_append_right (le_refl _)]
        simp
      · rw [List.getElem?_set_ne (by omega), hsuf1 k (by omega)]

/-- C9 at the line "ab", bold red, "x", reset in a 16-byte buffer: the codes go, "abx" stays. -/
theorem strip_ansi_removes_codes_witness :
    ((∀ p ∈ line_red_x, p.wf) ∧
      (render line_red_x ++ 0 :: [0x7a, 0x7a]).length = 17 ∧
      (render line_red_x).length + 2 ≤ 17 ∧ 17 < UINT_MOD) ∧
    ∃ out, strip_ansi false (render line_red_x ++ 0 :: [0x7a, 0x7a]) 17 = some out ∧
      out.length = 17 ∧ cstring out = [0x61, 0x62, 0x78] := by
  have hwf : ∀ p ∈ line_red_x, p.wf := by
    intro p hp
    simp only [line_red_x, List.mem_cons, List.mem_singleton, List.not_mem_nil, or_false] at hp
    rcases hp with rfl | rfl | rfl | rfl <;> simp [Piece.wf, ansi_codes, ESC]
  have h1 : (render line_red_x ++ 0 :: [0x7a, 0x7a]).length = 17 := by decide
  have h2 : (render line_red_x).length + 2 ≤ 17 := by decide
  have h3 : 17 < UINT_MOD := by decide
  obtain ⟨out, ho, hol, hc, _⟩ :=
    (strip_ansi_removes_codes line_red_x [0x7a, 0x7a] 17 hwf h1 h2 h3).1
  exact ⟨⟨hwf, h1, h2, h3⟩, out, ho, hol, hc⟩

end Trinity
